import Mathlib

/-!
Verification of the tabular-data ingestion and method-recommendation core of
the paper-writing application.  The TypeScript source is shallowly embedded:
JavaScript numbers are modelled as `JSNum` (finite rationals plus `NaN` and
the two infinities), table cells as `Value`, rows as association lists, and
the in-place mutations of the preprocessing pipeline as explicit heap
passing (a heap is a list of rows; a table is a list of row references).
`Math.sqrt` is kept abstract as an explicit function argument `msqrt`,
since its exact floating-point value never matters for the properties
below beyond facts such as `msqrt 0 = 0` that are stated as hypotheses.
String-to-number coercion (`Number(s)` / `isNaN(s)`) and `Date.parse` are
likewise abstracted as function arguments `pn` and `pd`.
-/

set_option maxHeartbeats 1000000

/-- A JavaScript number: a finite value (modelled exactly as a rational),
`NaN`, or one of the two infinities. -/
inductive JSNum where
  | fin (q : ℚ)
  | nan
  | posInf
  | negInf
deriving DecidableEq, Repr

/-- JavaScript addition. -/
def jsAdd : JSNum → JSNum → JSNum
  | .nan, _ => .nan
  | _, .nan => .nan
  | .posInf, .negInf => .nan
  | .negInf, .posInf => .nan
  | .posInf, _ => .posInf
  | _, .posInf => .posInf
  | .negInf, _ => .negInf
  | _, .negInf => .negInf
  | .fin a, .fin b => .fin (a + b)

/-- JavaScript unary negation. -/
def jsNeg : JSNum → JSNum
  | .fin a => .fin (-a)
  | .nan => .nan
  | .posInf => .negInf
  | .negInf => .posInf

/-- JavaScript subtraction (`a - b` behaves as `a + (-b)`). -/
def jsSub (a b : JSNum) : JSNum := jsAdd a (jsNeg b)

/-- JavaScript multiplication. -/
def jsMul : JSNum → JSNum → JSNum
  | .nan, _ => .nan
  | _, .nan => .nan
  | .fin a, .fin b => .fin (a * b)
  | .fin a, .posInf => if 0 < a then .posInf else if a < 0 then .negInf else .nan
  | .fin a, .negInf => if 0 < a then .negInf else if a < 0 then .posInf else .nan
  | .posInf, .fin b => if 0 < b then .posInf else if b < 0 then .negInf else .nan
  | .negInf, .fin b => if 0 < b then .negInf else if b < 0 then .posInf else .nan
  | .posInf, .posInf => .posInf
  | .posInf, .negInf => .negInf
  | .negInf, .posInf => .negInf
  | .negInf, .negInf => .posInf

/-- JavaScript division; in particular `0/0 = NaN` and `x/0 = ±∞` for
finite nonzero `x` (signed zero is not modelled). -/
def jsDiv : JSNum → JSNum → JSNum
  | .nan, _ => .nan
  | _, .nan => .nan
  | .fin a, .fin b =>
      if b = 0 then (if a = 0 then .nan else if 0 < a then .posInf else .negInf)
      else .fin (a / b)
  | .fin _, .posInf => .fin 0
  | .fin _, .negInf => .fin 0
  | .posInf, .fin b => if b < 0 then .negInf else .posInf
  | .negInf, .fin b => if b < 0 then .posInf else .negInf
  | .posInf, _ => .nan
  | .negInf, _ => .nan

/-- `Math.pow(x, 2)` as used by the source (equals `x * x`). -/
def jsPow2 (a : JSNum) : JSNum := jsMul a a

/-- JavaScript strict `<`; any comparison involving `NaN` is `false`. -/
def jsLtB : JSNum → JSNum → Bool
  | .nan, _ => false
  | _, .nan => false
  | .fin a, .fin b => decide (a < b)
  | .negInf, .negInf => false
  | .posInf, _ => false
  | _, .posInf => true
  | .negInf, _ => true
  | _, .negInf => false

/-- JavaScript strict `>`. -/
def jsGtB (a b : JSNum) : Bool := jsLtB b a

/-- `Math.abs`. -/
def jsAbs : JSNum → JSNum
  | .fin a => .fin |a|
  | .nan => .nan
  | .posInf => .posInf
  | .negInf => .posInf

/-- Comparison used to model the numeric sort comparator `(a, b) => a - b`;
behaviour on `NaN` is unspecified in JavaScript and arbitrary here (the
source only sorts lists of finite numbers). -/
def jsLeB : JSNum → JSNum → Bool
  | .fin a, .fin b => decide (a ≤ b)
  | .negInf, _ => true
  | _, .negInf => false
  | _, .posInf => true
  | .posInf, _ => false
  | _, _ => true

/-- Insert into a sorted list, for `jsSortNums`. -/
def insertNum (x : JSNum) : List JSNum → List JSNum
  | [] => [x]
  | y :: t => if jsLeB x y then x :: y :: t else y :: insertNum x t

/-- `[...values].sort((a, b) => a - b)`: numeric ascending sort. -/
def jsSortNums (l : List JSNum) : List JSNum := l.foldr insertNum []

/-- `Math.min` of two numbers (`NaN` wins). -/
def jsMin (a b : JSNum) : JSNum :=
  if a = .nan then .nan else if b = .nan then .nan else if jsLtB b a then b else a

/-- `Math.max` of two numbers (`NaN` wins). -/
def jsMax (a b : JSNum) : JSNum :=
  if a = .nan then .nan else if b = .nan then .nan else if jsLtB a b then b else a

/-- `Math.min(...l)`: `+∞` on the empty list. -/
def jsMinList (l : List JSNum) : JSNum := l.foldl jsMin .posInf

/-- `Math.max(...l)`: `-∞` on the empty list. -/
def jsMaxList (l : List JSNum) : JSNum := l.foldl jsMax .negInf

/-- A table cell: `null`, `undefined`, a number, a string, or a `Date`
(represented by its millisecond timestamp). -/
inductive Value where
  | null
  | undef
  | num (n : JSNum)
  | str (s : String)
  | date (t : ℤ)
deriving DecidableEq, Repr

/-- A row object: an insertion-ordered association list from column names to
cell values (JavaScript objects have unique keys; `setVal` keeps the first
binding's position exactly as property assignment does). -/
abbrev Row := List (String × Value)

/-- Property read `row[key]`; an absent key reads as `undefined`. -/
def getVal : Row → String → Value
  | [], _ => .undef
  | (k, v) :: t, key => if k = key then v else getVal t key

/-- Property write `row[key] = v` (functionally): replaces the first binding
of `key` in place, or appends a new binding. -/
def setVal : Row → String → Value → Row
  | [], key, v => [(key, v)]
  | (k, w) :: t, key, v =>
      if k = key then (k, v) :: t else (k, w) :: setVal t key v

/-- Numeric view of a cell as used by the pipeline's arithmetic; the
pipeline only applies it to cells that survived the non-null filter, and
every theorem below additionally assumes those cells are numbers, so the
catch-all `NaN` branch (JavaScript would coerce strings and dates) is
never relied upon. -/
def asNum : Value → JSNum
  | .num n => n
  | _ => .nan

/-- Source `calculateMean`: `0` on the empty list, else sum divided by
length. -/
def calculateMean (values : List JSNum) : JSNum :=
  if values.isEmpty then .fin 0
  else jsDiv (values.foldl jsAdd (.fin 0)) (.fin values.length)

/-- Source `calculateStd` (population standard deviation); `Math.sqrt` is
the explicit argument `msqrt`. -/
def calculateStd (msqrt : JSNum → JSNum) (values : List JSNum) : JSNum :=
  if values.isEmpty then .fin 0
  else
    let mean := calculateMean values
    msqrt (calculateMean (values.map (fun value => jsPow2 (jsSub value mean))))

/-- Source `calculateMedian`. -/
def calculateMedian (values : List JSNum) : JSNum :=
  if values.isEmpty then .fin 0
  else
    let sorted := jsSortNums values
    let middle := sorted.length / 2
    if sorted.length % 2 = 0 then
      jsDiv (jsAdd (sorted.getD (middle - 1) .nan) (sorted.getD middle .nan)) (.fin 2)
    else sorted.getD middle .nan

/-- Normalization of one cell by `preprocessData`: empty string, `undefined`
and `null` become `null`; then `!isNaN(value)` converts to a number (a
`Date` object passes this test and becomes its timestamp; a number stays
itself); then a string accepted by `Date.parse` becomes a `Date`; anything
else is untouched.  `pn` abstracts `Number`/`isNaN` string coercion
(`pn s = some q` iff `Number(s)` is the finite number `q`), `pd` abstracts
`Date.parse` (`pd s = some t` iff parsing succeeds with timestamp `t`). -/
def normCell (pn : String → Option ℚ) (pd : String → Option ℤ) : Value → Value
  | .undef => .null
  | .null => .null
  | .num n => .num n
  | .date t => .num (.fin t)
  | .str s =>
      if s = "" then .null
      else
        match pn s with
        | some q => .num (.fin q)
        | none =>
            match pd s with
            | some t => .date t
            | none => .str s

/-- Source `preprocessData`: normalize every cell of every row (a fresh
object is built per row, so this function is pure). -/
def preprocessData (pn : String → Option ℚ) (pd : String → Option ℤ)
    (data : List Row) : List Row :=
  data.map (fun row => row.map (fun kv => (kv.1, normCell pn pd kv.2)))

/-- Lowercase a string, `String.toLowerCase`. -/
def lowerStr (s : String) : String := String.mk (s.toList.map Char.toLower)

/-- Character-list version of `String.includes` matching. -/
def startsWithList : List Char → List Char → Bool
  | [], _ => true
  | _ :: _, [] => false
  | p :: ps, c :: cs => p = c && startsWithList ps cs

/-- Substring occurrence test on character lists. -/
def subListB (pat : List Char) : List Char → Bool
  | [] => pat.isEmpty
  | c :: t => startsWithList pat (c :: t) || subListB pat t

/-- `s.includes(pat)`. -/
def strHasSub (s pat : String) : Bool := subListB pat.toList s.toList

/-- Time-indicating tokens of `detectDataType`. -/
def timeTokens : List String := ["year", "date", "time"]

/-- Entity-indicating tokens of `detectDataType`. -/
def entityTokens : List String := ["id", "entity", "firm", "company", "province", "city"]

/-- Whether some key of the first row contains (case-insensitively) one of
the tokens. -/
def hasTokenKey (keys : List String) (toks : List String) : Bool :=
  keys.any (fun key => toks.any (fun tok => strHasSub (lowerStr key) tok))

/-- Source `detectDataType`: `(null, 0)` on the empty table, otherwise the
keyword heuristic over the first row's keys. -/
def detectDataType (data : List Row) : Option String × ℚ :=
  match data with
  | [] => (none, 0)
  | row :: _ =>
      let keys := row.map Prod.fst
      if hasTokenKey keys timeTokens && hasTokenKey keys entityTokens then
        (some "panel", 9/10)
      else if hasTokenKey keys timeTokens then (some "time_series", 4/5)
      else (some "cross_section", 7/10)

/-- Variable kind, the `type` union of `VariableInfo`. -/
inductive VType where
  | numeric
  | categorical
  | date
  | dummy
deriving DecidableEq, Repr

/-- Descriptive statistics, the `DataStats` interface. -/
structure DataStats where
  count : JSNum
  mean : JSNum
  std : JSNum
  min : JSNum
  max : JSNum
  missing : JSNum
deriving DecidableEq, Repr

/-- The `VariableInfo` interface. -/
structure VariableInfo where
  name : String
  type : VType
  stats : DataStats
deriving DecidableEq, Repr

/-- `isNaN(v)` on a non-coerced cell (`isNaN(null)` is `false` since `null`
coerces to `0`; a valid `Date` is not `NaN`). -/
def jsIsNaNv (pn : String → Option ℚ) : Value → Bool
  | .num n => n = .nan
  | .null => false
  | .undef => true
  | .str s => (pn s).isNone
  | .date _ => false

/-- `Number(v)` on a cell. -/
def toNumber (pn : String → Option ℚ) : Value → JSNum
  | .num n => n
  | .null => .fin 0
  | .undef => .nan
  | .str s => match pn s with | some q => .fin q | none => .nan
  | .date t => .fin t

/-- Source `analyzeVariables`: per column (in first-row key order) classify
the variable and compute its statistics.  `pdv` abstracts the test
`!isNaN(Date.parse(v))` on a non-null cell. -/
def analyzeVariables (pn : String → Option ℚ) (pdv : Value → Bool)
    (msqrt : JSNum → JSNum) (data : List Row) : List VariableInfo :=
  match data with
  | [] => []
  | first :: _ =>
      (first.map Prod.fst).map (fun column =>
        let values := (data.map (fun row => getVal row column)).filter (fun v => v ≠ .null)
        let numericValues := (values.filter (fun v => ¬ jsIsNaNv pn v)).map (toNumber pn)
        let type :=
          if numericValues.length = values.length ∧
              ∀ v ∈ numericValues, v = JSNum.fin 0 ∨ v = JSNum.fin 1 then VType.dummy
          else if (4/5 : ℚ) < (numericValues.length : ℚ) / (values.length : ℚ) then
            VType.numeric
          else if ∀ v ∈ values, pdv v = true then VType.date
          else VType.categorical
        let nd := type = VType.numeric ∨ type = VType.dummy
        { name := column
          type := type
          stats :=
            { count := .fin values.length
              mean := if nd then calculateMean numericValues else .fin 0
              std := if nd then calculateStd msqrt numericValues else .fin 0
              min := if nd then jsMinList numericValues else .fin 0
              max := if nd then jsMaxList numericValues else .fin 0
              missing := .fin ((data.length : ℚ) - (values.length : ℚ)) } })

/-- The `ProcessedData` bundle resolved by `parseFile` (`...dataType`
spreads the detector's two fields). -/
structure ProcessedData where
  rawData : List Row
  variableInfos : List VariableInfo
  dataType : Option String
  confidence : ℚ
deriving DecidableEq, Repr

/-- A raw uploaded file: its name, MIME type, the text a `FileReader` would
deliver for `readAsText`, and (abstractly) the row list the XLSX library
would produce from its `readAsArrayBuffer` buffer. -/
structure UploadFile where
  name : String
  mime : String
  textContent : String
  excelRows : List Row

/-- Source `parseCSV`.  Note: the source splits on the literal two-character
sequence backslash-`n` (`text.split('\\n')`), not on newlines; this is kept
faithfully.  Each data line is split on commas and zipped with the trimmed
header names, absent trailing fields defaulting to the empty string. -/
def parseCSV (text : String) : List Row :=
  let lines := text.splitOn "\\n"
  let headers := ((lines.headD "").splitOn ",").map String.trim
  (((lines.drop 1).filter (fun line => line.trim ≠ ""))).map (fun line =>
    let values := line.splitOn ","
    (headers.enum).foldl
      (fun obj p => setVal obj p.2 (.str ((values.getD p.1 "").trim))) [])

/-- `s.endsWith(pat)` modelled over character lists (the built-in
`String.endsWith` is equivalent but does not reduce in the kernel). -/
def strEndsWith (s pat : String) : Bool :=
  startsWithList pat.toList.reverse s.toList.reverse

/-- Source `parseFile`, with the asynchronous `FileReader` flattened into a
synchronous function: the extension dispatch chooses CSV text parsing,
spreadsheet parsing, or — for any other extension — no parsing at all
(`data` keeps its initial `[]`), after which normalization, shape detection
and variable analysis always run and the promise resolves.  The `Except`
layer models the promise's reject channel; no reachable branch uses it. -/
def parseFile (pn : String → Option ℚ) (pd : String → Option ℤ)
    (pdv : Value → Bool) (msqrt : JSNum → JSNum)
    (file : UploadFile) : Except String ProcessedData :=
  let data :=
    if strEndsWith file.name ".csv" then parseCSV file.textContent
    else if strEndsWith file.name ".xlsx" || strEndsWith file.name ".xls" then
      file.excelRows
    else []
  let processedData := preprocessData pn pd data
  let dataType := detectDataType processedData
  let infos := analyzeVariables pn pdv msqrt processedData
  .ok { rawData := processedData, variableInfos := infos
        dataType := dataType.1, confidence := dataType.2 }

/-- The MIME allow-list of `handleFileUpload` in the data-analysis editor. -/
def allowedTypes : List String :=
  ["application/vnd.ms-excel",
   "application/vnd.openxmlformats-officedocument.spreadsheetml.sheet",
   "text/csv"]

/-- Outcome of the upload handler's validation step. -/
inductive UploadOutcome where
  | rejected (msg : String)
  | uploaded
deriving DecidableEq, Repr

/-- `handleFileUpload`'s file-kind validation: a MIME type outside the
allow-list is rejected with a user-visible message before any upload I/O;
otherwise the file is posted to the backend. -/
def handleFileUpload (fileType : String) : UploadOutcome :=
  if allowedTypes.contains fileType then .uploaded
  else .rejected "只支持 .csv, .xlsx, .xls 格式的文件"

/-- The `MethodRecommendation` record of `methodRecommendation.ts`. -/
structure MethodRecommendation where
  name : String
  description : String
  advantages : List String
  considerations : List String
  assumptions : List String
  testMethods : List String
  formula : String
  suitableConditions : List String
  suitableScenarios : List String
  confidence : ℚ
deriving DecidableEq, Repr

/-- The `DataInfo` argument of the recommender.  `dataType` is a plain
string so that the runtime behaviour on values outside the declared union
is captured. -/
structure DataInfo where
  dataType : String
  hasInstrumental : Bool
  hasMediator : Bool
  hasModerator : Bool
  hasGroupVariable : Bool
  hasTimeVariable : Bool
  hasEntityVariable : Bool
  sampleSize : ℕ
deriving DecidableEq, Repr

/-- Fixed-effects recommendation pushed for panel data. -/
def fixedEffectsModel : MethodRecommendation where
  name := "固定效应模型"
  description := "控制不随时间变化的个体特征，适用于研究个体内部的变化"
  advantages := ["控制不可观测的个体固定效应", "减少遗漏变量偏误", "适用于大样本面板数据"]
  considerations := ["无法估计不随时间变化的变量系数", "需要足够的时间维度变异"]
  assumptions := ["严格外生性", "误差项同方差性", "误差项无序列相关"]
  testMethods := ["Hausman检验", "F检验", "异方差检验"]
  formula := "Y_it = α_i + X_it′β + ε_it"
  suitableConditions := ["个体效应与解释变量相关", "样本量充足", "时间跨度适中"]
  suitableScenarios := ["公司金融研究", "产业经济分析", "区域经济研究"]
  confidence := 9/10

/-- Random-effects recommendation pushed for panel data. -/
def randomEffectsModel : MethodRecommendation where
  name := "随机效应模型"
  description := "假设个体效应为随机变量，适用于研究个体间的差异"
  advantages := ["可以估计不随时间变化的变量系数", "效率更高（如果假设成立）"]
  considerations := ["需要个体效应与解释变量不相关的假设", "可能存在内生性问题"]
  assumptions := ["个体效应与解释变量不相关", "误差项同方差性", "误差项无序列相关"]
  testMethods := ["Hausman检验", "Breusch-Pagan LM检验"]
  formula := "Y_it = α + X_it′β + (u_i + ε_it)"
  suitableConditions := ["个体效应与解释变量不相关", "样本是总体的随机抽样"]
  suitableScenarios := ["宏观经济研究", "人口统计分析", "社会调查研究"]
  confidence := 85/100

/-- OLS recommendation pushed for cross-sectional data. -/
def olsModel : MethodRecommendation where
  name := "普通最小二乘法（OLS）"
  description := "最基础的回归方法，适用于基本的线性关系分析"
  advantages := ["计算简单", "结果易于解释", "在古典假设下是最佳线性无偏估计量"]
  considerations := ["可能存在内生性问题", "需要满足严格的古典假设"]
  assumptions := ["线性关系", "误差项独立同分布", "解释变量与误差项不相关"]
  testMethods := ["异方差检验", "序列相关检验", "正态性检验"]
  formula := "Y = Xβ + ε"
  suitableConditions := ["无严重内生性问题", "误差项满足古典假设"]
  suitableScenarios := ["简单的因果关系分析", "预测模型构建", "相关性研究"]
  confidence := 8/10

/-- Two-stage-least-squares recommendation pushed when an instrumental
variable is present. -/
def tslsModel : MethodRecommendation where
  name := "两阶段最小二乘法（2SLS）"
  description := "处理内生性问题的常用方法，通过工具变量进行估计"
  advantages := ["可以处理内生性问题", "得到一致估计量"]
  considerations := ["需要有效的工具变量", "弱工具变量问题"]
  assumptions := ["工具变量的相关性", "工具变量的外生性", "排他性假设"]
  testMethods := ["过度识别检验", "弱工具变量检验", "Hausman内生性检验"]
  formula := "第一阶段：X = Zπ + v\n第二阶段：Y = X̂β + ε"
  suitableConditions := ["存在内生性问题", "有合适的工具变量"]
  suitableScenarios := ["政策效果评估", "供需关系研究", "因果推断分析"]
  confidence := 85/100

/-- Generic time-series recommendation. -/
def timeSeriesModel : MethodRecommendation where
  name := "时间序列分析"
  description := "适用于研究变量随时间变化的模式和关系"
  advantages := ["可以捕捉时间趋势", "处理序列相关", "进行预测"]
  considerations := ["需要足够长的时间序列", "可能存在单位根问题"]
  assumptions := ["平稳性（或可转化为平稳）", "无序列相关", "误差项同方差性"]
  testMethods := ["单位根检验", "协整检验", "Granger因果检验"]
  formula := "取决于具体模型（AR、MA、ARIMA等）"
  suitableConditions := ["时间序列数据", "关注时间动态变化"]
  suitableScenarios := ["经济周期研究", "金融市场分析", "预测研究"]
  confidence := 85/100

/-- Source `recommendMethodsByDataStructure`: the three `if` blocks push
their recommendations onto the result array in order. -/
def recommendMethodsByDataStructure (dataInfo : DataInfo) : List MethodRecommendation :=
  (if dataInfo.dataType = "panel" then [fixedEffectsModel, randomEffectsModel] else [])
    ++ (if dataInfo.dataType = "cross_section" then
          [olsModel] ++ (if dataInfo.hasInstrumental then [tslsModel] else [])
        else [])
    ++ (if dataInfo.dataType = "time_series" then [timeSeriesModel] else [])

/-- A heap of row objects; a row reference is an index into the heap, and a
table is a list of row references.  `[...data]` copies the reference list
but shares the row objects, exactly as the JavaScript spread does. -/
abbrev Heap := List Row

/-- Dereference `row[column]` through the heap. -/
def getCell (h : Heap) (r : ℕ) (c : String) : Value := getVal (h.getD r []) c

/-- The sequence of values a column holds in a table (caller's view of the
shared rows). -/
def colCells (h : Heap) (tbl : List ℕ) (c : String) : List Value :=
  tbl.map (fun r => getCell h r c)

/-- The missing-value sub-configuration (`threshold?` is optional). -/
structure MissingValueConfig where
  method : String
  threshold : Option ℚ
deriving DecidableEq, Repr

/-- The outlier sub-configuration. -/
structure OutlierConfig where
  method : String
  threshold : ℚ
deriving DecidableEq, Repr

/-- The standardization sub-configuration. -/
structure StandardizationConfig where
  method : String
deriving DecidableEq, Repr

/-- The `PreprocessConfig` value object. -/
structure PreprocessConfig where
  missingValue : MissingValueConfig
  outlier : OutlierConfig
  standardization : StandardizationConfig
deriving DecidableEq, Repr

/-- `config.threshold || 0.5`: JavaScript's `||` takes the default both for
an absent threshold and for a configured threshold of `0` (falsy). -/
def thresholdOr (t : Option ℚ) : ℚ :=
  match t with
  | none => 1/2
  | some x => if x = 0 then 1/2 else x

/-- A per-column entry of the missing-value summary. -/
structure MVSummaryEntry where
  method : String
  count : ℕ
deriving DecidableEq, Repr

/-- A per-column entry of the outlier summary. -/
structure OutlierSummaryEntry where
  method : String
  count : ℕ
deriving DecidableEq, Repr

/-- Replay parameters recorded by the standardization stage. -/
inductive StdParams where
  | zparams (mean std : JSNum)
  | mmparams (minv maxv : JSNum)
deriving DecidableEq, Repr

/-- A per-column entry of the standardization summary. -/
structure StdSummaryEntry where
  method : String
  params : StdParams
deriving DecidableEq, Repr

/-- First-match lookup in an insertion-ordered summary object. -/
def lookupStr {α : Type} : List (String × α) → String → Option α
  | [], _ => none
  | (k, v) :: t, key => if k = key then some v else lookupStr t key

/-- The `PreprocessSummary` object. -/
structure PreprocessSummary where
  missingValues : List (String × MVSummaryEntry)
  outliers : List (String × OutlierSummaryEntry)
  standardization : List (String × StdSummaryEntry)
deriving DecidableEq, Repr

/-- Mean/median imputation walk over the reference list
(`processedData.map(row => row[name] === null ? {...row, [name]: m} : row)`):
a row whose cell is null is replaced by a freshly allocated copy with the
cell set to `m`; other rows keep their reference.  Returns the new heap,
the new reference list and the number of replaced cells. -/
def imputeColumn (name : String) (m : JSNum) : Heap → List ℕ → Heap × List ℕ × ℕ
  | h, [] => (h, [], 0)
  | h, r :: rest =>
      if getCell h r name = .null then
        let newRef := h.length
        let h' := h ++ [setVal (h.getD r []) name (.num m)]
        let res := imputeColumn name m h' rest
        (res.1, newRef :: res.2.1, res.2.2 + 1)
      else
        let res := imputeColumn name m h rest
        (res.1, r :: res.2.1, res.2.2)

/-- One variable's step of `handleMissingValues`.  Non-numeric variables
are skipped; a column whose missing ratio exceeds the (falsy-defaulted)
threshold is recorded as `skip` and left untouched; otherwise the
configured method runs, `mode` falling into the `default` branch that
records nothing. -/
def handleMissingValuesStep (config : MissingValueConfig)
    (st : Heap × List ℕ × List (String × MVSummaryEntry)) (v : VariableInfo) :
    Heap × List ℕ × List (String × MVSummaryEntry) :=
  let h := st.1
  let refs := st.2.1
  let summ := st.2.2
  if v.type ≠ VType.numeric then st
  else
    let missingCount := (refs.filter (fun r => getCell h r v.name = .null)).length
    let missingRatio := jsDiv (.fin missingCount) (.fin refs.length)
    if jsGtB missingRatio (.fin (thresholdOr config.threshold)) then
      (h, refs, summ ++ [(v.name, ⟨"skip", missingCount⟩)])
    else if config.method = "mean" then
      let m := calculateMean (((refs.map (fun r => getCell h r v.name)).filter
        (fun c => c ≠ .null)).map asNum)
      let res := imputeColumn v.name m h refs
      (res.1, res.2.1, summ ++ [(v.name, ⟨"mean", res.2.2⟩)])
    else if config.method = "median" then
      let m := calculateMedian (((refs.map (fun r => getCell h r v.name)).filter
        (fun c => c ≠ .null)).map asNum)
      let res := imputeColumn v.name m h refs
      (res.1, res.2.1, summ ++ [(v.name, ⟨"median", res.2.2⟩)])
    else if config.method = "remove" then
      let refs' := refs.filter (fun r => getCell h r v.name ≠ .null)
      (h, refs', summ ++ [(v.name, ⟨"remove", refs.length - refs'.length⟩)])
    else st

/-- Source `handleMissingValues`: fold the per-variable step over the
variable list. -/
def handleMissingValues (h : Heap) (tbl : List ℕ) (vars : List VariableInfo)
    (config : MissingValueConfig) : Heap × List ℕ × List (String × MVSummaryEntry) :=
  vars.foldl (handleMissingValuesStep config) (h, tbl, [])

/-- Source `detectOutliersZScore`: indices (into the null-filtered value
list) whose z-score magnitude exceeds the threshold. -/
def detectOutliersZScore (msqrt : JSNum → JSNum) (values : List JSNum)
    (threshold : ℚ) : List ℕ :=
  let mean := calculateMean values
  let std := calculateStd msqrt values
  ((values.enum).filter (fun p =>
    jsGtB (jsAbs (jsDiv (jsSub p.2 mean) std)) (.fin threshold))).map Prod.fst

/-- Source `detectOutliersIQR`: nearest-rank quartiles from a sorted copy
(`Math.floor(len * 0.25)` is `len / 4` and `Math.floor(len * 0.75)` is
`3 * len / 4` in exact arithmetic); an out-of-range quartile index reads
`undefined`, whose arithmetic is `NaN` (so no index is flagged), modelled
by the `NaN` default. -/
def detectOutliersIQR (values : List JSNum) (threshold : ℚ) : List ℕ :=
  let sorted := jsSortNums values
  let q1 := sorted.getD (sorted.length / 4) .nan
  let q3 := sorted.getD (3 * sorted.length / 4) .nan
  let iqr := jsSub q3 q1
  let lowerBound := jsSub q1 (jsMul (.fin threshold) iqr)
  let upperBound := jsAdd q3 (jsMul (.fin threshold) iqr)
  ((values.enum).filter (fun p =>
    jsLtB p.2 lowerBound || jsGtB p.2 upperBound)).map Prod.fst

/-- The clamped replacement value of one `handleOutliers` write: the
detected value (`values[index]`) is compared with the column mean and
clamped to `mean ± threshold·std` (mean and std recomputed from the same
snapshot, as in the source's `forEach`). -/
def outlierNewVal (msqrt : JSNum → JSNum) (threshold : ℚ)
    (values : List JSNum) (index : ℕ) : JSNum :=
  let value := values.getD index .nan
  let mean := calculateMean values
  let std := calculateStd msqrt values
  if jsGtB value mean then jsAdd mean (jsMul (.fin threshold) std)
  else jsSub mean (jsMul (.fin threshold) std)

/-- One clamping write of `handleOutliers`
(`processedData[index][variable.name] = ...`): the detected index into the
null-filtered value list is used directly as a row index, and the row
object it selects is mutated in place. -/
def outlierWrite (msqrt : JSNum → JSNum) (name : String) (threshold : ℚ)
    (values : List JSNum) (tbl : List ℕ) (h : Heap) (index : ℕ) : Heap :=
  let r := tbl.getD index 0
  h.set r (setVal (h.getD r []) name
    (.num (outlierNewVal msqrt threshold values index)))

/-- One variable's step of `handleOutliers`. -/
def handleOutliersStep (msqrt : JSNum → JSNum) (config : OutlierConfig)
    (tbl : List ℕ) (st : Heap × List (String × OutlierSummaryEntry))
    (v : VariableInfo) : Heap × List (String × OutlierSummaryEntry) :=
  let h := st.1
  let summ := st.2
  if v.type = VType.numeric then
    let values := ((tbl.map (fun r => getCell h r v.name)).filter
      (fun c => c ≠ .null)).map asNum
    let outlierIndices :=
      if config.method = "zscore" then detectOutliersZScore msqrt values config.threshold
      else if config.method = "iqr" then detectOutliersIQR values config.threshold
      else []
    let h' := outlierIndices.foldl (outlierWrite msqrt v.name config.threshold values tbl) h
    (h', summ ++ [(v.name, ⟨config.method, outlierIndices.length⟩)])
  else st

/-- Source `handleOutliers`: the reference list is returned unchanged
(`[...data]`); only row objects are mutated. -/
def handleOutliers (msqrt : JSNum → JSNum) (h : Heap) (tbl : List ℕ)
    (vars : List VariableInfo) (config : OutlierConfig) :
    Heap × List ℕ × List (String × OutlierSummaryEntry) :=
  let st := vars.foldl (handleOutliersStep msqrt config tbl) (h, [])
  (st.1, tbl, st.2)

/-- One z-score standardization write (`row[name] = (row[name] - mean)/std`
for a non-null cell), mutating the shared row object in place. -/
def stdZWrite (name : String) (mean std : JSNum) (h : Heap) (r : ℕ) : Heap :=
  let row := h.getD r []
  if getVal row name ≠ .null then
    h.set r (setVal row name (.num (jsDiv (jsSub (asNum (getVal row name)) mean) std)))
  else h

/-- One min-max standardization write
(`row[name] = (row[name] - min)/(max - min)`). -/
def stdMMWrite (name : String) (minv maxv : JSNum) (h : Heap) (r : ℕ) : Heap :=
  let row := h.getD r []
  if getVal row name ≠ .null then
    h.set r (setVal row name
      (.num (jsDiv (jsSub (asNum (getVal row name)) minv) (jsSub maxv minv))))
  else h

/-- One variable's step of `standardizeData`. -/
def standardizeDataStep (msqrt : JSNum → JSNum) (config : StandardizationConfig)
    (tbl : List ℕ) (st : Heap × List (String × StdSummaryEntry))
    (v : VariableInfo) : Heap × List (String × StdSummaryEntry) :=
  let h := st.1
  let summ := st.2
  if v.type = VType.numeric then
    let values := ((tbl.map (fun r => getCell h r v.name)).filter
      (fun c => c ≠ .null)).map asNum
    if config.method = "zscore" then
      let mean := calculateMean values
      let std := calculateStd msqrt values
      (tbl.foldl (stdZWrite v.name mean std) h,
       summ ++ [(v.name, ⟨"zscore", .zparams mean std⟩)])
    else if config.method = "minmax" then
      let minv := jsMinList values
      let maxv := jsMaxList values
      (tbl.foldl (stdMMWrite v.name minv maxv) h,
       summ ++ [(v.name, ⟨"minmax", .mmparams minv maxv⟩)])
    else st
  else st

/-- Source `standardizeData`: reference list unchanged, row objects mutated
in place. -/
def standardizeData (msqrt : JSNum → JSNum) (h : Heap) (tbl : List ℕ)
    (vars : List VariableInfo) (config : StandardizationConfig) :
    Heap × List ℕ × List (String × StdSummaryEntry) :=
  let st := vars.foldl (standardizeDataStep msqrt config tbl) (h, [])
  (st.1, tbl, st.2)

/-- Source `preprocessDataAdvanced`: the three stages in fixed order, each
run only when its method is not `none`. -/
def preprocessDataAdvanced (msqrt : JSNum → JSNum) (h : Heap) (tbl : List ℕ)
    (vars : List VariableInfo) (config : PreprocessConfig) :
    Heap × List ℕ × PreprocessSummary :=
  let s1 :=
    if config.missingValue.method ≠ "none" then
      handleMissingValues h tbl vars config.missingValue
    else (h, tbl, [])
  let s2 :=
    if config.outlier.method ≠ "none" then
      handleOutliers msqrt s1.1 s1.2.1 vars config.outlier
    else (s1.1, s1.2.1, [])
  let s3 :=
    if config.standardization.method ≠ "none" then
      standardizeData msqrt s2.1 s2.2.1 vars config.standardization
    else (s2.1, s2.2.1, [])
  (s3.1, s3.2.1, ⟨s1.2.2, s2.2.2, s3.2.2⟩)

/-- A heap extension: the old heap is an initial segment of the new one, so
every existing row object is untouched (fresh rows are only appended). -/
def heapExtends (h h' : Heap) : Prop :=
  h.length ≤ h'.length ∧ ∀ r, r < h.length → h'.getD r [] = h.getD r []

/-- Partial concrete model of `Math.sqrt`, used to instantiate the abstract
`msqrt` argument in concrete examples; it is exact on the arguments that
actually arise there (`Math.sqrt` of a non-square is irrational, which a
rational model cannot represent, so those arguments map to `NaN`). -/
def sqrtQ : JSNum → JSNum
  | .fin q =>
      if q = 0 then .fin 0 else if q = 1 then .fin 1 else if q = 4 then .fin 2 else .nan
  | .posInf => .posInf
  | _ => .nan

/-- Concrete model of string-to-number coercion in which no string parses
as a number (the concrete examples only use non-numeric strings). -/
def pnNone : String → Option ℚ := fun _ => none

/-- Concrete model of `Date.parse` recognising the single literal
`"2020-01-01"` (whose real timestamp is 1577836800000 ms). -/
def pdJan2020 : String → Option ℤ :=
  fun s => if s = "2020-01-01" then some 1577836800000 else none

/-- A `VariableInfo` with the given name and type and all-zero statistics
(the pipeline reads only `name` and `type`). -/
def mkVar (n : String) (t : VType) : VariableInfo :=
  ⟨n, t, ⟨.fin 0, .fin 0, .fin 0, .fin 0, .fin 0, .fin 0⟩⟩

/-- The finite numeric contents of a cell list, used to state
arithmetic-mean properties independently of the JavaScript number model. -/
def finCol (l : List Value) : List ℚ :=
  l.filterMap (fun v => match v with | .num (.fin x) => some x | _ => none)

/-! ## Helper lemmas -/

theorem getVal_setVal_self (row : Row) (k : String) (v : Value) :
    getVal (setVal row k v) k = v := by
  induction row with
  | nil => simp [setVal, getVal]
  | cons kv t ih =>
      obtain ⟨k', w⟩ := kv
      by_cases hk : k' = k
      · simp [setVal, getVal, hk]
      · simp [setVal, getVal, hk, ih]

theorem getVal_setVal_ne (row : Row) (k k' : String) (v : Value) (h : k' ≠ k) :
    getVal (setVal row k v) k' = getVal row k' := by
  induction row with
  | nil => simp [setVal, getVal, Ne.symm h]
  | cons kv t ih =>
      obtain ⟨k₀, w⟩ := kv
      by_cases hk : k₀ = k
      · subst hk
        simp [setVal, getVal, Ne.symm h]
      · by_cases hk' : k₀ = k'
        · subst hk'
          simp [setVal, getVal, hk, h]
        · simp [setVal, getVal, hk, hk', ih]

theorem getD_set_ne (h : Heap) (r r' : ℕ) (row : Row) (hne : r' ≠ r) :
    (h.set r row).getD r' [] = h.getD r' [] := by
  simp [List.getD_eq_getElem?_getD, List.getElem?_set_ne (Ne.symm hne)]

theorem getD_set_self (h : Heap) (r : ℕ) (row : Row) (hr : r < h.length) :
    (h.set r row).getD r [] = row := by
  simp [List.getD_eq_getElem?_getD, List.getElem?_set_self hr]

theorem heapExtends_refl (h : Heap) : heapExtends h h := ⟨le_refl _, fun _ _ => rfl⟩

theorem heapExtends_trans {h1 h2 h3 : Heap} (a : heapExtends h1 h2)
    (b : heapExtends h2 h3) : heapExtends h1 h3 :=
  ⟨le_trans a.1 b.1, fun r hr => (b.2 r (lt_of_lt_of_le hr a.1)).trans (a.2 r hr)⟩

theorem heapExtends_append (h : Heap) (ext : Heap) : heapExtends h (h ++ ext) :=
  ⟨by simp, fun r hr => List.getD_append _ _ _ _ hr⟩

/-! ### Evaluation lemmas for the JavaScript number model -/

@[simp] theorem jsAdd_fin (a b : ℚ) : jsAdd (.fin a) (.fin b) = .fin (a + b) := rfl

@[simp] theorem jsAdd_nan_left (b : JSNum) : jsAdd .nan b = .nan := by cases b <;> rfl

@[simp] theorem jsAdd_nan_right (a : JSNum) : jsAdd a .nan = .nan := by
  cases a <;> rfl

@[simp] theorem jsNeg_fin (a : ℚ) : jsNeg (.fin a) = .fin (-a) := rfl

@[simp] theorem jsNeg_nan : jsNeg .nan = .nan := rfl

@[simp] theorem jsSub_fin (a b : ℚ) : jsSub (.fin a) (.fin b) = .fin (a - b) := by
  simp [jsSub, sub_eq_add_neg]

@[simp] theorem jsSub_nan_left (b : JSNum) : jsSub .nan b = .nan := by cases b <;> rfl

@[simp] theorem jsSub_nan_right (a : JSNum) : jsSub a .nan = .nan := by
  cases a <;> rfl

@[simp] theorem jsMul_fin (a b : ℚ) : jsMul (.fin a) (.fin b) = .fin (a * b) := rfl

@[simp] theorem jsMul_nan_left (b : JSNum) : jsMul .nan b = .nan := by cases b <;> rfl

@[simp] theorem jsMul_nan_right (a : JSNum) : jsMul a .nan = .nan := by
  cases a <;> rfl

@[simp] theorem jsDiv_fin_fin (a b : ℚ) :
    jsDiv (.fin a) (.fin b) =
      if b = 0 then (if a = 0 then .nan else if 0 < a then .posInf else .negInf)
      else .fin (a / b) := rfl

@[simp] theorem jsDiv_nan_left (b : JSNum) : jsDiv .nan b = .nan := by cases b <;> rfl

@[simp] theorem jsDiv_nan_right (a : JSNum) : jsDiv a .nan = .nan := by
  cases a <;> rfl

@[simp] theorem jsPow2_fin (a : ℚ) : jsPow2 (.fin a) = .fin (a * a) := rfl

@[simp] theorem jsLtB_fin (a b : ℚ) : jsLtB (.fin a) (.fin b) = decide (a < b) := rfl

@[simp] theorem jsLtB_nan_left (b : JSNum) : jsLtB .nan b = false := by cases b <;> rfl

@[simp] theorem jsLtB_nan_right (a : JSNum) : jsLtB a .nan = false := by
  cases a <;> rfl

@[simp] theorem jsGtB_eq (a b : JSNum) : jsGtB a b = jsLtB b a := rfl

@[simp] theorem jsAbs_fin (a : ℚ) : jsAbs (.fin a) = .fin |a| := rfl

@[simp] theorem jsAbs_nan : jsAbs .nan = .nan := rfl

/-! ## Claim theorems -/

/-- C5: for `dataType = "cross_section"` the recommender returns OLS
(confidence 0.8) first and 2SLS (confidence 0.85) second iff
`hasInstrumental`; for `"panel"` exactly Fixed-Effects (0.9) then
Random-Effects (0.85); for `"time_series"` exactly one generic method
(0.85); for any other `dataType` the empty list.  The order is the literal
push order, with no re-ranking. -/
theorem recommendMethods_by_dataType_spec (info : DataInfo) :
    (info.dataType = "panel" →
      recommendMethodsByDataStructure info = [fixedEffectsModel, randomEffectsModel] ∧
      fixedEffectsModel.confidence = 9/10 ∧ randomEffectsModel.confidence = 85/100) ∧
    (info.dataType = "cross_section" →
      recommendMethodsByDataStructure info =
        olsModel :: (if info.hasInstrumental then [tslsModel] else []) ∧
      olsModel.confidence = 8/10 ∧ tslsModel.confidence = 85/100) ∧
    (info.dataType = "time_series" →
      recommendMethodsByDataStructure info = [timeSeriesModel] ∧
      timeSeriesModel.confidence = 85/100) ∧
    (info.dataType ≠ "panel" → info.dataType ≠ "cross_section" →
      info.dataType ≠ "time_series" → recommendMethodsByDataStructure info = []) := by
  refine ⟨fun h1 => ⟨?_, rfl, rfl⟩, fun h1 => ⟨?_, rfl, rfl⟩,
    fun h1 => ⟨?_, rfl⟩, fun h1 h2 h3 => ?_⟩ <;>
    simp_all [recommendMethodsByDataStructure]

/-- Witness for C5 at a concrete cross-sectional input with an instrumental
variable: OLS first, 2SLS second. -/
theorem recommendMethods_by_dataType_spec_witness :
    recommendMethodsByDataStructure
      ⟨"cross_section", true, false, false, false, false, false, 10⟩ =
      [olsModel, tslsModel] := by
  have h := (recommendMethods_by_dataType_spec
    ⟨"cross_section", true, false, false, false, false, false, 10⟩).2.1 rfl
  simpa using h.1

/-- C8: `detectDataType` returns `(null, 0)` on the empty table; otherwise,
by case-insensitive substring matching over the first row's column names,
panel (0.9) when both a time and an entity token occur, time-series (0.8)
when only a time token occurs, and cross-section (0.7) otherwise. -/
theorem detectDataType_spec :
    detectDataType [] = (none, 0) ∧
    ∀ (row : Row) (rest : List Row),
      detectDataType (row :: rest) =
        (if hasTokenKey (row.map Prod.fst) timeTokens then
          if hasTokenKey (row.map Prod.fst) entityTokens then (some "panel", 9/10)
          else (some "time_series", 4/5)
        else (some "cross_section", 7/10)) := by
  refine ⟨rfl, fun row rest => ?_⟩
  cases h1 : hasTokenKey (row.map Prod.fst) timeTokens <;>
    cases h2 : hasTokenKey (row.map Prod.fst) entityTokens <;>
      simp [detectDataType, h1, h2]

/-- C9: every `VariableInfo` produced by `analyzeVariables` satisfies
`stats.count + stats.missing = table.length`, whatever the inferred type. -/
theorem analyzeVariables_count_add_missing (pn : String → Option ℚ)
    (pdv : Value → Bool) (msqrt : JSNum → JSNum) (data : List Row)
    (v : VariableInfo) (hv : v ∈ analyzeVariables pn pdv msqrt data) :
    jsAdd v.stats.count v.stats.missing = .fin (data.length : ℚ) := by
  cases data with
  | nil => simp [analyzeVariables] at hv
  | cons first rest =>
      unfold analyzeVariables at hv
      simp only [List.mem_map] at hv
      obtain ⟨column, -, rfl⟩ := hv
      simp only [jsAdd]
      congr 1
      ring

/-- Witness for C9 on a two-row table whose single column has one null:
`count + missing = 1 + 1 = 2 = table.length`. -/
theorem analyzeVariables_count_add_missing_witness :
    ((⟨"x", VType.dummy, ⟨.fin 1, .fin 1, .fin 0, .fin 1, .fin 1, .fin 1⟩⟩ : VariableInfo) ∈
      analyzeVariables pnNone (fun _ => false) sqrtQ
        [[("x", Value.null)], [("x", Value.num (.fin 1))]]) ∧
    jsAdd (JSNum.fin 1) (JSNum.fin 1) = .fin 2 := by
  have hmem : (⟨"x", VType.dummy,
      ⟨.fin 1, .fin 1, .fin 0, .fin 1, .fin 1, .fin 1⟩⟩ : VariableInfo) ∈
      analyzeVariables pnNone (fun _ => false) sqrtQ
        [[("x", Value.null)], [("x", Value.num (.fin 1))]] := by
    have : analyzeVariables pnNone (fun _ => false) sqrtQ
        [[("x", Value.null)], [("x", Value.num (.fin 1))]] =
        [⟨"x", VType.dummy, ⟨.fin 1, .fin 1, .fin 0, .fin 1, .fin 1, .fin 1⟩⟩] := by
      simp [analyzeVariables, pnNone, sqrtQ, jsIsNaNv, toNumber, calculateMean,
        calculateStd, jsMinList, jsMaxList, jsMin, jsMax, jsDiv, jsAdd, jsSub,
        jsNeg, jsMul, jsPow2, getVal, jsLtB]
      norm_num
    rw [this]
    exact List.mem_singleton.mpr rfl
  refine ⟨hmem, ?_⟩
  have h := analyzeVariables_count_add_missing pnNone (fun _ => false) sqrtQ
    [[("x", Value.null)], [("x", Value.num (.fin 1))]]
    ⟨"x", VType.dummy, ⟨.fin 1, .fin 1, .fin 0, .fin 1, .fin 1, .fin 1⟩⟩ hmem
  simpa using h

/-- C10: in a non-empty table, a column whose cells are all null is
classified as `dummy` (the 0/1 check holds vacuously) with count 0,
missing = table length, mean 0, std 0, min `+∞` and max `-∞`. -/
theorem analyzeVariables_allNull_dummy (pn : String → Option ℚ)
    (pdv : Value → Bool) (msqrt : JSNum → JSNum) (first : Row)
    (rest : List Row) (col : String) (hcol : col ∈ first.map Prod.fst)
    (hnull : ∀ row ∈ first :: rest, getVal row col = Value.null) :
    (⟨col, VType.dummy,
      ⟨.fin 0, .fin 0, .fin 0, .posInf, .negInf,
        .fin (((first :: rest).length : ℚ))⟩⟩ : VariableInfo) ∈
      analyzeVariables pn pdv msqrt (first :: rest) := by
  unfold analyzeVariables
  refine List.mem_map.mpr ⟨col, hcol, ?_⟩
  have hvals :
      ((first :: rest).map (fun row => getVal row col)).filter
        (fun v => v ≠ Value.null) = [] := by
    rw [List.filter_eq_nil_iff]
    intro a ha
    obtain ⟨row, hrow, rfl⟩ := List.mem_map.mp ha
    simp [hnull row hrow]
  simp only [hvals]
  rw [if_pos ⟨rfl, by simp⟩]
  simp [calculateMean, calculateStd, jsMinList, jsMaxList]

/-- Witness for C10 on a concrete two-row all-null column. -/
theorem analyzeVariables_allNull_dummy_witness :
    (⟨"x", VType.dummy, ⟨.fin 0, .fin 0, .fin 0, .posInf, .negInf, .fin 2⟩⟩ : VariableInfo) ∈
      analyzeVariables pnNone (fun _ => false) sqrtQ
        [[("x", Value.null)], [("x", Value.null)]] := by
  have h := analyzeVariables_allNull_dummy pnNone (fun _ => false) sqrtQ
    [("x", Value.null)] [[("x", Value.null)]] "x" (by simp)
    (by
      intro row hrow
      have hr : row = [("x", Value.null)] := by simpa using hrow
      simp [hr, getVal])
  simpa using h

/-- C4 counterexample: a `.txt` file matches none of `parseFile`'s
extension checks, yet the promise resolves successfully (with an empty
table) instead of failing with an `UnsupportedFormat` error. -/
theorem parseFile_unsupported_resolves_cex :
    (strEndsWith "data.txt" ".csv" = false ∧ strEndsWith "data.txt" ".xlsx" = false ∧
      strEndsWith "data.txt" ".xls" = false) ∧
    parseFile pnNone pdJan2020 (fun _ => false) sqrtQ
      ⟨"data.txt", "text/plain", "a,b", []⟩ = .ok ⟨[], [], none, 0⟩ := by
  refine ⟨⟨by decide, by decide, by decide⟩, ?_⟩
  rfl

/-- C4 amended: the MIME allow-list check lives in `handleFileUpload`,
which rejects any other MIME type with a user-visible error before any
upload I/O; `parseFile` itself performs no format validation and, for a
file whose name matches none of the three extensions, resolves
successfully with an empty table (empty normalized data, no variables,
null shape, confidence 0) rather than rejecting. -/
theorem upload_rejects_and_parseFile_resolves (pn : String → Option ℚ)
    (pd : String → Option ℤ) (pdv : Value → Bool) (msqrt : JSNum → JSNum)
    (file : UploadFile) (hmime : file.mime ∉ allowedTypes)
    (hcsv : strEndsWith file.name ".csv" = false)
    (hxlsx : strEndsWith file.name ".xlsx" = false)
    (hxls : strEndsWith file.name ".xls" = false) :
    handleFileUpload file.mime = .rejected "只支持 .csv, .xlsx, .xls 格式的文件" ∧
    parseFile pn pd pdv msqrt file = .ok ⟨[], [], none, 0⟩ := by
  constructor
  · simp [handleFileUpload, hmime]
  · simp only [parseFile, hcsv, hxlsx, hxls, Bool.or_self, Bool.false_eq_true,
      if_false]
    rfl

/-- Witness for the amended C4 at a concrete plain-text file. -/
theorem upload_rejects_and_parseFile_resolves_witness :
    ("text/plain" ∉ allowedTypes ∧ strEndsWith "data.txt" ".csv" = false) ∧
    handleFileUpload "text/plain" = .rejected "只支持 .csv, .xlsx, .xls 格式的文件" ∧
    parseFile pnNone pdJan2020 (fun _ => false) sqrtQ
      ⟨"data.txt", "text/plain", "a,b", []⟩ = .ok ⟨[], [], none, 0⟩ :=
  ⟨⟨by decide, by decide⟩,
    upload_rejects_and_parseFile_resolves pnNone pdJan2020 (fun _ => false) sqrtQ
      ⟨"data.txt", "text/plain", "a,b", []⟩ (by decide) (by decide) (by decide)
      (by decide)⟩

/-- A cell produced by `normCell` that is not a `Date` is a fixed point of
`normCell`. -/
theorem normCell_fix (pn : String → Option ℚ) (pd : String → Option ℤ)
    (v : Value) (h : ∀ t : ℤ, normCell pn pd v ≠ .date t) :
    normCell pn pd (normCell pn pd v) = normCell pn pd v := by
  cases v with
  | null => rfl
  | undef => rfl
  | num n => rfl
  | date t => rfl
  | str s =>
      by_cases hs : s = ""
      · simp [normCell, hs]
      · cases hpn : pn s with
        | some q => simp [normCell, hs, hpn]
        | none =>
            cases hpd : pd s with
            | some t =>
                exfalso
                exact h t (by simp [normCell, hs, hpn, hpd])
            | none => simp [normCell, hs, hpn, hpd]

/-- C1 counterexample: `preprocessData` is not idempotent.  A cell holding
the string `"2020-01-01"` is normalized to a `Date` by the first pass, and
the second pass converts that `Date` (which passes `!isNaN`) to its
numeric timestamp. -/
theorem preprocessData_not_idempotent_cex :
    preprocessData pnNone pdJan2020
        (preprocessData pnNone pdJan2020 [[("d", Value.str "2020-01-01")]]) ≠
      preprocessData pnNone pdJan2020 [[("d", Value.str "2020-01-01")]] := by
  simp [preprocessData, normCell, pnNone, pdJan2020]

/-- C1 amended: `preprocessData` is idempotent on every table whose
normalized form contains no `Date` cell — cells already normalized to
null, number, or string are left unchanged by a second run — but a cell
normalized to a `Date` is converted to its numeric timestamp by the second
run, so idempotence fails in general. -/
theorem preprocessData_idempotent_on_dateless (pn : String → Option ℚ)
    (pd : String → Option ℤ) (data : List Row)
    (hnodate : ∀ row ∈ preprocessData pn pd data, ∀ kv ∈ row,
      ∀ t : ℤ, kv.2 ≠ Value.date t) :
    preprocessData pn pd (preprocessData pn pd data) = preprocessData pn pd data := by
  unfold preprocessData at hnodate ⊢
  rw [List.map_map]
  apply List.map_congr_left
  intro row hrow
  have hrow' : row.map (fun kv => (kv.1, normCell pn pd kv.2)) ∈
      data.map (fun row => row.map (fun kv => (kv.1, normCell pn pd kv.2))) :=
    List.mem_map_of_mem _ hrow
  simp only [Function.comp_apply, List.map_map]
  apply List.map_congr_left
  intro kv hkv
  have hkv' : (kv.1, normCell pn pd kv.2) ∈
      row.map (fun kv => (kv.1, normCell pn pd kv.2)) :=
    List.mem_map_of_mem _ hkv
  have hnd : ∀ t : ℤ, normCell pn pd kv.2 ≠ Value.date t :=
    fun t => hnodate _ hrow' _ hkv' t
  simp only [Function.comp_apply]
  exact congrArg (fun w => (kv.1, w)) (normCell_fix pn pd kv.2 hnd)

/-- Witness for the amended C1: a table whose normalized form has a string,
a number and a null cell (no dates) is a fixed point of a second
normalization pass. -/
theorem preprocessData_idempotent_on_dateless_witness :
    (∀ row ∈ preprocessData pnNone pdJan2020
        [[("a", Value.str "xy"), ("b", Value.num (.fin 3)), ("c", Value.null)]],
      ∀ kv ∈ row, ∀ t : ℤ, kv.2 ≠ Value.date t) ∧
    preprocessData pnNone pdJan2020
        (preprocessData pnNone pdJan2020
          [[("a", Value.str "xy"), ("b", Value.num (.fin 3)), ("c", Value.null)]]) =
      preprocessData pnNone pdJan2020
        [[("a", Value.str "xy"), ("b", Value.num (.fin 3)), ("c", Value.null)]] := by
  have hnd : ∀ row ∈ preprocessData pnNone pdJan2020
      [[("a", Value.str "xy"), ("b", Value.num (.fin 3)), ("c", Value.null)]],
      ∀ kv ∈ row, ∀ t : ℤ, kv.2 ≠ Value.date t := by
    intro row hrow kv hkv t
    have hr : row = [("a", Value.str "xy"), ("b", Value.num (.fin 3)), ("c", Value.null)] := by
      simpa [preprocessData, normCell, pnNone, pdJan2020] using hrow
    subst hr
    simp at hkv
    rcases hkv with h | h | h <;> simp [h]
  exact ⟨hnd, preprocessData_idempotent_on_dateless pnNone pdJan2020 _ hnd⟩

/-- Mean/median imputation only appends freshly allocated rows to the
heap; it never overwrites an existing row object. -/
theorem imputeColumn_heap_append (name : String) (m : JSNum) (refs : List ℕ) :
    ∀ h : Heap, ∃ ext, (imputeColumn name m h refs).1 = h ++ ext := by
  induction refs with
  | nil => exact fun h => ⟨[], by simp [imputeColumn]⟩
  | cons r rest ih =>
      intro h
      unfold imputeColumn
      by_cases hc : getCell h r name = .null
      · simp only [if_pos hc]
        obtain ⟨ext, hext⟩ := ih (h ++ [setVal (h.getD r []) name (.num m)])
        exact ⟨setVal (h.getD r []) name (.num m) :: ext, hext.trans (by simp)⟩
      · simp only [if_neg hc]
        exact ih h

/-- Mean/median imputation extends the heap. -/
theorem imputeColumn_extends (name : String) (m : JSNum) (h : Heap)
    (refs : List ℕ) : heapExtends h (imputeColumn name m h refs).1 := by
  obtain ⟨ext, hext⟩ := imputeColumn_heap_append name m refs h
  rw [hext]
  exact heapExtends_append _ _

/-- Every step of the missing-value stage extends the heap (it either
leaves it alone or appends fresh rows). -/
theorem handleMissingValuesStep_extends (config : MissingValueConfig)
    (st : Heap × List ℕ × List (String × MVSummaryEntry)) (v : VariableInfo) :
    heapExtends st.1 (handleMissingValuesStep config st v).1 := by
  simp only [handleMissingValuesStep]
  split_ifs <;>
    first
      | exact heapExtends_refl _
      | exact imputeColumn_extends _ _ _ _

/-- The whole missing-value stage extends the heap. -/
theorem handleMissingValues_extends (config : MissingValueConfig)
    (vars : List VariableInfo) :
    ∀ st : Heap × List ℕ × List (String × MVSummaryEntry),
      heapExtends st.1 ((vars.foldl (handleMissingValuesStep config) st)).1 := by
  induction vars with
  | nil => exact fun st => heapExtends_refl _
  | cons v rest ih =>
      intro st
      rw [List.foldl_cons]
      exact heapExtends_trans (handleMissingValuesStep_extends config st v) (ih _)

/-- C3 amended: the missing-value stage allocates fresh rows and never
mutates an existing row object, so as long as the outlier and
standardization stages are disabled (`none`), every row object the caller
held before the call is byte-for-byte unchanged afterwards — for every
missing-value method.  (The outlier and standardization stages, by
contrast, mutate the shared row objects in place; see the
counterexample.) -/
theorem preprocessDataAdvanced_preserves_caller_rows (msqrt : JSNum → JSNum)
    (h : Heap) (tbl : List ℕ) (vars : List VariableInfo)
    (config : PreprocessConfig) (hout : config.outlier.method = "none")
    (hstd : config.standardization.method = "none") (r : ℕ) (hr : r < h.length) :
    (preprocessDataAdvanced msqrt h tbl vars config).1.getD r [] = h.getD r [] := by
  unfold preprocessDataAdvanced
  simp only [hout, hstd, ne_eq, not_true_eq_false, if_false, ite_not]
  by_cases hmv : config.missingValue.method = "none"
  · simp [hmv]
  · simp only [hmv, if_false]
    exact (handleMissingValues_extends config.missingValue vars (h, tbl, [])).2 r hr

/-- Witness for the amended C3: mean imputation on a column with a null
leaves the caller's (first) row object unchanged. -/
theorem preprocessDataAdvanced_preserves_caller_rows_witness :
    ((⟨⟨"mean", some (1/2)⟩, ⟨"none", 3⟩, ⟨"none"⟩⟩ : PreprocessConfig).outlier.method =
        "none" ∧
      (⟨⟨"mean", some (1/2)⟩, ⟨"none", 3⟩, ⟨"none"⟩⟩ : PreprocessConfig).standardization.method =
        "none" ∧ 0 < ([[("x", Value.null)], [("x", Value.num (.fin 2))]] : Heap).length) ∧
    (preprocessDataAdvanced sqrtQ [[("x", Value.null)], [("x", Value.num (.fin 2))]]
        [0, 1] [mkVar "x" VType.numeric]
        ⟨⟨"mean", some (1/2)⟩, ⟨"none", 3⟩, ⟨"none"⟩⟩).1.getD 0 [] =
      ([[("x", Value.null)], [("x", Value.num (.fin 2))]] : Heap).getD 0 [] :=
  ⟨⟨rfl, rfl, by simp⟩,
    preprocessDataAdvanced_preserves_caller_rows sqrtQ
      [[("x", Value.null)], [("x", Value.num (.fin 2))]] [0, 1]
      [mkVar "x" VType.numeric] ⟨⟨"mean", some (1/2)⟩, ⟨"none", 3⟩, ⟨"none"⟩⟩
      rfl rfl 0 (by simp)⟩

/-- C3 counterexample: with z-score standardization enabled, the caller's
first row object no longer holds its pre-call value after
`preprocessDataAdvanced` returns — the stage wrote through the shared
reference (the cell `0` became `(0 - 1)/1 = -1`). -/
theorem preprocessDataAdvanced_mutates_caller_rows_cex :
    (preprocessDataAdvanced sqrtQ
        [[("x", Value.num (.fin 0))], [("x", Value.num (.fin 2))]] [0, 1]
        [mkVar "x" VType.numeric]
        ⟨⟨"none", none⟩, ⟨"none", 0⟩, ⟨"zscore"⟩⟩).1.getD 0 [] ≠
      [("x", Value.num (.fin 0))] := by
  have hmean : calculateMean [JSNum.fin 0, JSNum.fin 2] = JSNum.fin 1 := by
    norm_num [calculateMean]
  have hstd : calculateStd sqrtQ [JSNum.fin 0, JSNum.fin 2] = JSNum.fin 1 := by
    norm_num [calculateStd, calculateMean, sqrtQ]
  simp [preprocessDataAdvanced, standardizeData, standardizeDataStep, stdZWrite,
    mkVar, getCell, getVal, setVal, asNum, hmean, hstd]

/-- Reading a heap slot after `set`: changed at the written index (when in
range), unchanged elsewhere. -/
theorem getD_set (h : Heap) (r r' : ℕ) (row : Row) :
    (h.set r row).getD r' [] =
      if r' = r ∧ r < h.length then row else h.getD r' [] := by
  by_cases hr : r' = r
  · subst hr
    by_cases hlen : r' < h.length
    · simp [getD_set_self _ _ _ hlen, hlen]
    · rw [List.set_eq_of_length_le (le_of_not_lt hlen)]
      simp [hlen]
  · rw [getD_set_ne _ _ _ _ hr, if_neg (fun hcon => hr hcon.1)]

theorem stdZWrite_length (name : String) (mean std : JSNum) (h : Heap) (r : ℕ) :
    (stdZWrite name mean std h r).length = h.length := by
  simp only [stdZWrite]
  split <;> simp

theorem stdZWrite_getD_ne (name : String) (mean std : JSNum) (h : Heap)
    (r r' : ℕ) (hne : r' ≠ r) :
    (stdZWrite name mean std h r).getD r' [] = h.getD r' [] := by
  simp only [stdZWrite]
  split
  · rw [getD_set_ne _ _ _ _ hne]
  · rfl

theorem stdZWrite_getVal_ne (name : String) (mean std : JSNum) (h : Heap)
    (r r' : ℕ) (c : String) (hc : c ≠ name) :
    getVal ((stdZWrite name mean std h r).getD r' []) c =
      getVal (h.getD r' []) c := by
  simp only [stdZWrite]
  split
  · rw [getD_set]
    split
    case isTrue hcond =>
      obtain ⟨hr, -⟩ := hcond
      subst hr
      rw [getVal_setVal_ne _ _ _ _ hc]
    case isFalse => rfl
  · rfl

theorem stdMMWrite_length (name : String) (minv maxv : JSNum) (h : Heap) (r : ℕ) :
    (stdMMWrite name minv maxv h r).length = h.length := by
  simp only [stdMMWrite]
  split <;> simp

theorem stdMMWrite_getVal_ne (name : String) (minv maxv : JSNum) (h : Heap)
    (r r' : ℕ) (c : String) (hc : c ≠ name) :
    getVal ((stdMMWrite name minv maxv h r).getD r' []) c =
      getVal (h.getD r' []) c := by
  simp only [stdMMWrite]
  split
  · rw [getD_set]
    split
    case isTrue hcond =>
      obtain ⟨hr, -⟩ := hcond
      subst hr
      rw [getVal_setVal_ne _ _ _ _ hc]
    case isFalse => rfl
  · rfl

theorem stdZFold_length (name : String) (mean std : JSNum) (refs : List ℕ) :
    ∀ h : Heap, (refs.foldl (stdZWrite name mean std) h).length = h.length := by
  induction refs with
  | nil => intro h; rfl
  | cons r rest ih =>
      intro h
      rw [List.foldl_cons, ih, stdZWrite_length]

theorem stdMMFold_length (name : String) (minv maxv : JSNum) (refs : List ℕ) :
    ∀ h : Heap, (refs.foldl (stdMMWrite name minv maxv) h).length = h.length := by
  induction refs with
  | nil => intro h; rfl
  | cons r rest ih =>
      intro h
      rw [List.foldl_cons, ih, stdMMWrite_length]

theorem stdZFold_getD_not_mem (name : String) (mean std : JSNum)
    (refs : List ℕ) :
    ∀ (h : Heap) (r : ℕ), r ∉ refs →
      (refs.foldl (stdZWrite name mean std) h).getD r [] = h.getD r [] := by
  induction refs with
  | nil => intro h r _; rfl
  | cons r0 rest ih =>
      intro h r hr
      simp only [List.mem_cons, not_or] at hr
      rw [List.foldl_cons, ih _ _ hr.2, stdZWrite_getD_ne _ _ _ _ _ _ hr.1]

theorem stdZFold_getVal_ne (name : String) (mean std : JSNum) (refs : List ℕ)
    (c : String) (hc : c ≠ name) :
    ∀ (h : Heap) (r' : ℕ),
      getVal ((refs.foldl (stdZWrite name mean std) h).getD r' []) c =
        getVal (h.getD r' []) c := by
  induction refs with
  | nil => intro h r'; rfl
  | cons r0 rest ih =>
      intro h r'
      rw [List.foldl_cons, ih _ _, stdZWrite_getVal_ne _ _ _ _ _ _ _ hc]

theorem stdMMFold_getVal_ne (name : String) (minv maxv : JSNum) (refs : List ℕ)
    (c : String) (hc : c ≠ name) :
    ∀ (h : Heap) (r' : ℕ),
      getVal ((refs.foldl (stdMMWrite name minv maxv) h).getD r' []) c =
        getVal (h.getD r' []) c := by
  induction refs with
  | nil => intro h r'; rfl
  | cons r0 rest ih =>
      intro h r'
      rw [List.foldl_cons, ih _ _, stdMMWrite_getVal_ne _ _ _ _ _ _ _ hc]

/-- Effect of the z-score write pass on its own column: a null cell stays
null, every other cell is replaced by its standardized value (computed from
the snapshot `mean`/`std`). -/
theorem stdZFold_cells (name : String) (mean std : JSNum) (tbl : List ℕ)
    (hnodup : tbl.Nodup) :
    ∀ h : Heap, (∀ r ∈ tbl, r < h.length) →
      colCells (tbl.foldl (stdZWrite name mean std) h) tbl name =
        (colCells h tbl name).map
          (fun v => if v = .null then .null
            else .num (jsDiv (jsSub (asNum v) mean) std)) := by
  induction tbl with
  | nil => intro h _; rfl
  | cons r rest ih =>
      intro h hwf
      have hrmem : r ∉ rest := by
        simp only [List.nodup_cons] at hnodup
        exact hnodup.1
      have hnodup' : rest.Nodup := by
        simp only [List.nodup_cons] at hnodup
        exact hnodup.2
      rw [List.foldl_cons]
      show getCell (rest.foldl (stdZWrite name mean std)
          (stdZWrite name mean std h r)) r name ::
          colCells (rest.foldl (stdZWrite name mean std)
            (stdZWrite name mean std h r)) rest name = _
      have hhead :
          getCell (rest.foldl (stdZWrite name mean std)
            (stdZWrite name mean std h r)) r name =
          (if getCell h r name = .null then .null
            else .num (jsDiv (jsSub (asNum (getCell h r name)) mean) std)) := by
        unfold getCell
        rw [stdZFold_getD_not_mem _ _ _ _ _ _ hrmem]
        simp only [stdZWrite]
        split
        case isTrue hcond =>
          rw [getD_set, if_pos ⟨rfl, hwf r (by simp)⟩, getVal_setVal_self]
        case isFalse hcond =>
          simp only [ne_eq, not_not] at hcond
          rw [if_pos hcond]
          exact hcond
      have htail :
          colCells (rest.foldl (stdZWrite name mean std)
            (stdZWrite name mean std h r)) rest name =
          (colCells h rest name).map
            (fun v => if v = .null then .null
              else .num (jsDiv (jsSub (asNum v) mean) std)) := by
        rw [ih hnodup' (stdZWrite name mean std h r)
          (fun r' hr' => by rw [stdZWrite_length]; exact hwf r' (by simp [hr']))]
        congr 1
        apply List.map_congr_left
        intro r' hr'
        unfold getCell
        rw [stdZWrite_getD_ne]
        intro hrr
        exact hrmem (hrr ▸ hr')
      rw [hhead, htail]
      rfl

/-- A standardization step for a variable with a different name does not
change the given column's cells and preserves the heap size. -/
theorem standardizeDataStep_frame (msqrt : JSNum → JSNum)
    (config : StandardizationConfig) (tbl : List ℕ)
    (st : Heap × List (String × StdSummaryEntry)) (v : VariableInfo)
    (c : String) (hc : v.name ≠ c) :
    colCells (standardizeDataStep msqrt config tbl st v).1 tbl c =
      colCells st.1 tbl c ∧
    (standardizeDataStep msqrt config tbl st v).1.length = st.1.length := by
  simp only [standardizeDataStep]
  split_ifs
  case _ =>
    constructor
    · apply List.map_congr_left
      intro r hr
      exact stdZFold_getVal_ne _ _ _ tbl c (Ne.symm hc) st.1 r
    · exact stdZFold_length _ _ _ tbl st.1
  case _ =>
    constructor
    · apply List.map_congr_left
      intro r hr
      exact stdMMFold_getVal_ne _ _ _ tbl c (Ne.symm hc) st.1 r
    · exact stdMMFold_length _ _ _ tbl st.1
  all_goals exact ⟨rfl, rfl⟩

/-- Folding standardization steps over variables that all have names other
than `c` leaves column `c` unchanged. -/
theorem standardizeData_fold_frame (msqrt : JSNum → JSNum)
    (config : StandardizationConfig) (tbl : List ℕ) (c : String)
    (vars : List VariableInfo) (hvars : ∀ v ∈ vars, v.name ≠ c) :
    ∀ st : Heap × List (String × StdSummaryEntry),
      colCells ((vars.foldl (standardizeDataStep msqrt config tbl) st)).1 tbl c =
        colCells st.1 tbl c ∧
      ((vars.foldl (standardizeDataStep msqrt config tbl) st)).1.length =
        st.1.length := by
  induction vars with
  | nil => exact fun st => ⟨rfl, rfl⟩
  | cons v rest ih =>
      intro st
      rw [List.foldl_cons]
      have hstep := standardizeDataStep_frame msqrt config tbl st v c
        (hvars v (by simp))
      have hrest := ih (fun w hw => hvars w (by simp [hw]))
        (standardizeDataStep msqrt config tbl st v)
      exact ⟨hrest.1.trans hstep.1, hrest.2.trans hstep.2⟩

/-- Folding `jsAdd` over a constant list of finite values. -/
theorem foldl_jsAdd_const (q : ℚ) (l : List JSNum)
    (hl : ∀ x ∈ l, x = .fin q) :
    ∀ a : ℚ, l.foldl jsAdd (.fin a) = .fin (a + l.length * q) := by
  induction l with
  | nil => intro a; simp
  | cons x t ih =>
      intro a
      rw [List.foldl_cons, hl x (by simp), jsAdd_fin,
        ih (fun y hy => hl y (by simp [hy])) (a + q)]
      congr 1
      simp only [List.length_cons]
      push_cast
      ring

/-- The mean of a non-empty constant list is that constant. -/
theorem calculateMean_const (q : ℚ) (l : List JSNum) (hne : l ≠ [])
    (hl : ∀ x ∈ l, x = .fin q) : calculateMean l = .fin q := by
  unfold calculateMean
  rw [if_neg (by simpa using hne)]
  rw [foldl_jsAdd_const q l hl 0, jsDiv_fin_fin]
  have hlen : (l.length : ℚ) ≠ 0 := by
    have : l.length ≠ 0 := by
      simpa [List.length_eq_zero] using hne
    exact_mod_cast this
  rw [if_neg hlen]
  congr 1
  field_simp

/-- The standard deviation of a non-empty constant list is 0 (given that
`Math.sqrt 0 = 0`). -/
theorem calculateStd_const (msqrt : JSNum → JSNum)
    (hsqrt : msqrt (.fin 0) = .fin 0) (q : ℚ) (l : List JSNum) (hne : l ≠ [])
    (hl : ∀ x ∈ l, x = .fin q) : calculateStd msqrt l = .fin 0 := by
  simp only [calculateStd]
  rw [if_neg (by simpa using hne)]
  rw [calculateMean_const q l hne hl]
  have hmap : l.map (fun value => jsPow2 (jsSub value (.fin q))) =
      l.map (fun _ => JSNum.fin 0) := by
    apply List.map_congr_left
    intro x hx
    rw [hl x hx]
    simp
  rw [hmap]
  rw [calculateMean_const 0 _ (by simpa using hne) (by simp)]
  exact hsqrt

/-- Unfolding of a z-score standardization step on a numeric variable. -/
theorem standardizeDataStep_zscore_apply (msqrt : JSNum → JSNum)
    (tbl : List ℕ) (st : Heap × List (String × StdSummaryEntry))
    (v : VariableInfo) (hv : v.type = VType.numeric) :
    (standardizeDataStep msqrt ⟨"zscore"⟩ tbl st v).1 =
      tbl.foldl (stdZWrite v.name
        (calculateMean (((tbl.map (fun r => getCell st.1 r v.name)).filter
          (fun x => x ≠ Value.null)).map asNum))
        (calculateStd msqrt (((tbl.map (fun r => getCell st.1 r v.name)).filter
          (fun x => x ≠ Value.null)).map asNum))) st.1 := by
  simp [standardizeDataStep, hv]

/-- C2 amended: for every numeric column whose non-null values all
coincide, z-score standardization degrades each standardized cell to `NaN`
(the JavaScript value of `0/0`), not to the sentinel `0`: the pipeline does
not raise, but the degraded value is `NaN`.  Null cells stay null. -/
theorem standardizeData_zscore_constant_column (msqrt : JSNum → JSNum)
    (h : Heap) (tbl : List ℕ) (vs1 vs2 : List VariableInfo)
    (vc : VariableInfo) (q : ℚ) (hnum : vc.type = VType.numeric)
    (hnames : ∀ v ∈ vs1 ++ vs2, v.name ≠ vc.name)
    (hwf : ∀ r ∈ tbl, r < h.length) (hnodup : tbl.Nodup)
    (hconst : ∀ r ∈ tbl, getCell h r vc.name = .null ∨
      getCell h r vc.name = .num (.fin q))
    (hsqrt : msqrt (.fin 0) = .fin 0) :
    colCells (standardizeData msqrt h tbl (vs1 ++ vc :: vs2) ⟨"zscore"⟩).1
        tbl vc.name =
      (colCells h tbl vc.name).map
        (fun v => if v = .null then .null else .num .nan) := by
  have hvs1names : ∀ v ∈ vs1, v.name ≠ vc.name :=
    fun v hv => hnames v (by simp [hv])
  have hvs2names : ∀ v ∈ vs2, v.name ≠ vc.name :=
    fun v hv => hnames v (by simp [hv])
  simp only [standardizeData]
  rw [List.foldl_append, List.foldl_cons]
  have frame1 := standardizeData_fold_frame msqrt ⟨"zscore"⟩ tbl vc.name vs1
    hvs1names (h, [])
  set st1 := vs1.foldl (standardizeDataStep msqrt ⟨"zscore"⟩ tbl)
    ((h, []) : Heap × List (String × StdSummaryEntry)) with hst1def
  have hwf1 : ∀ r ∈ tbl, r < st1.1.length := by
    intro r hr
    rw [frame1.2]
    exact hwf r hr
  have hcol1 : colCells st1.1 tbl vc.name = colCells h tbl vc.name := frame1.1
  have frame2 := standardizeData_fold_frame msqrt ⟨"zscore"⟩ tbl vc.name vs2
    hvs2names (standardizeDataStep msqrt ⟨"zscore"⟩ tbl st1 vc)
  rw [frame2.1]
  rw [standardizeDataStep_zscore_apply msqrt tbl st1 vc hnum]
  rw [show (tbl.map (fun r => getCell st1.1 r vc.name)) =
    colCells h tbl vc.name from hcol1]
  rw [stdZFold_cells vc.name _ _ tbl hnodup st1.1 hwf1]
  rw [hcol1]
  apply List.map_congr_left
  intro v hv
  obtain ⟨r, hr, rfl⟩ := List.mem_map.mp hv
  rcases hconst r hr with hnull | hfin
  · simp [hnull]
  · rw [hfin]
    have hne : (Value.num (JSNum.fin q) : Value) ≠ Value.null := by simp
    rw [if_neg hne, if_neg hne]
    have hmemV : JSNum.fin q ∈ ((colCells h tbl vc.name).filter
        (fun x => x ≠ Value.null)).map asNum := by
      refine List.mem_map.mpr ⟨Value.num (.fin q), ?_, rfl⟩
      refine List.mem_filter.mpr ⟨?_, by simp⟩
      rw [← hfin]
      exact List.mem_map.mpr ⟨r, hr, rfl⟩
    have hVne : ((colCells h tbl vc.name).filter
        (fun x => x ≠ Value.null)).map asNum ≠ [] :=
      List.ne_nil_of_mem hmemV
    have hVconst : ∀ x ∈ ((colCells h tbl vc.name).filter
        (fun x => x ≠ Value.null)).map asNum, x = JSNum.fin q := by
      intro x hx
      obtain ⟨w, hw, rfl⟩ := List.mem_map.mp hx
      obtain ⟨hwmem, hwne⟩ := List.mem_filter.mp hw
      obtain ⟨r', hr', rfl⟩ := List.mem_map.mp hwmem
      rcases hconst r' hr' with hnull' | hfin'
      · exact absurd hnull' (by simpa using hwne)
      · rw [hfin']
        rfl
    rw [calculateMean_const q _ hVne hVconst,
      calculateStd_const msqrt hsqrt q _ hVne hVconst]
    simp [asNum]

/-- Witness for the amended C2: a two-row column constantly 5 standardizes
to `NaN` in both rows. -/
theorem standardizeData_zscore_constant_column_witness :
    colCells (standardizeData sqrtQ
        [[("x", Value.num (.fin 5))], [("x", Value.num (.fin 5))]] [0, 1]
        [mkVar "x" VType.numeric] ⟨"zscore"⟩).1 [0, 1] "x" =
      [Value.num .nan, Value.num .nan] := by
  have h := standardizeData_zscore_constant_column sqrtQ
    [[("x", Value.num (.fin 5))], [("x", Value.num (.fin 5))]] [0, 1]
    [] [] (mkVar "x" VType.numeric) 5 rfl (by simp)
    (by decide) (by decide)
    (by intro r hr; right; fin_cases hr <;> rfl)
    (by simp [sqrtQ])
  simpa [colCells, getCell, getVal, mkVar] using h

/-- C2 counterexample: on the constant column `[5, 5]` the z-score stage
produces `NaN` cells, not the sentinel value `0` the claim states. -/
theorem standardizeData_zscore_constant_cex :
    getVal ((standardizeData sqrtQ
        [[("x", Value.num (.fin 5))], [("x", Value.num (.fin 5))]] [0, 1]
        [mkVar "x" VType.numeric] ⟨"zscore"⟩).1.getD 0 []) "x" ≠
      Value.num (.fin 0) := by
  have hmean : calculateMean [JSNum.fin 5, JSNum.fin 5] = JSNum.fin 5 := by
    norm_num [calculateMean]
  have hstd : calculateStd sqrtQ [JSNum.fin 5, JSNum.fin 5] = JSNum.fin 0 := by
    norm_num [calculateStd, calculateMean, sqrtQ]
  simp [standardizeData, standardizeDataStep, stdZWrite, mkVar, getCell,
    getVal, setVal, asNum, hmean, hstd]

/-- Lookup in a summary skips over an appended entry with a different key. -/
theorem lookupStr_append_single_ne {α : Type} (l : List (String × α))
    (k k' : String) (e : α) (h : k ≠ k') :
    lookupStr (l ++ [(k, e)]) k' = lookupStr l k' := by
  induction l with
  | nil => simp [lookupStr, h]
  | cons kv t ih =>
      obtain ⟨k0, v0⟩ := kv
      by_cases hk : k0 = k'
      · simp [lookupStr, hk]
      · simp [lookupStr, hk, ih]

/-- Lookup finds an appended entry when the key was absent so far. -/
theorem lookupStr_append_single_found {α : Type} (l : List (String × α))
    (k : String) (e : α) (h : lookupStr l k = none) :
    lookupStr (l ++ [(k, e)]) k = some e := by
  induction l with
  | nil => simp [lookupStr]
  | cons kv t ih =>
      obtain ⟨k0, v0⟩ := kv
      by_cases hk : k0 = k
      · simp only [lookupStr] at h
        rw [if_pos hk] at h
        simp at h
      · simp only [List.cons_append, lookupStr] at h ⊢
        rw [if_neg hk] at h ⊢
        exact ih h

/-- Counting nulls over the cell list equals counting references whose cell
is null. -/
theorem length_filter_colCells (h : Heap) (tbl : List ℕ) (c : String) :
    ((colCells h tbl c).filter (fun v => v = Value.null)).length =
      (tbl.filter (fun r => getCell h r c = Value.null)).length := by
  unfold colCells
  rw [List.filter_map]
  simp only [List.length_map]
  rfl

/-- Folding `jsAdd` over a list of finite values sums them. -/
theorem foldl_jsAdd_map_fin (qs : List ℚ) :
    ∀ a : ℚ, (qs.map JSNum.fin).foldl jsAdd (.fin a) = .fin (a + qs.sum) := by
  induction qs with
  | nil => intro a; simp
  | cons x t ih =>
      intro a
      rw [List.map_cons, List.foldl_cons, jsAdd_fin, ih (a + x)]
      congr 1
      simp [add_assoc]

/-- `calculateMean` of a list of finite values is the arithmetic mean
`sum / length` (with the empty list giving `0`, as `0/0 = 0` in `ℚ`). -/
theorem calculateMean_finList (qs : List ℚ) :
    calculateMean (qs.map JSNum.fin) = .fin (qs.sum / qs.length) := by
  cases qs with
  | nil => simp [calculateMean]
  | cons x t =>
      unfold calculateMean
      rw [if_neg (by simp)]
      rw [foldl_jsAdd_map_fin (x :: t) 0, jsDiv_fin_fin]
      rw [if_neg (by
        rw [List.length_map, List.length_cons]
        push_cast
        positivity)]
      simp

/-- Under the fin-or-null hypothesis, the pipeline's null-filtered numeric
view of a cell list is exactly its `finCol` image. -/
theorem filtered_asNum_eq_finCol (l : List Value)
    (hl : ∀ v ∈ l, v = .null ∨ ∃ x : ℚ, v = .num (.fin x)) :
    (l.filter (fun v => v ≠ Value.null)).map asNum =
      (finCol l).map JSNum.fin := by
  induction l with
  | nil => rfl
  | cons v t ih =>
      rcases hl v (by simp) with hnull | ⟨x, hx⟩
      · subst hnull
        simp only [finCol, List.filterMap_cons]
        rw [List.filter_cons_of_neg (by simp)]
        exact ih (fun w hw => hl w (by simp [hw]))
      · subst hx
        simp only [finCol, List.filterMap_cons]
        rw [List.filter_cons_of_pos (by simp)]
        simp only [List.map_cons]
        rw [ih (fun w hw => hl w (by simp [hw]))]
        rfl

/-- Mean/median imputation on its own column: every null cell of the new
table becomes `m`, every other cell is untouched; the count is the number
of null cells; the table length is preserved and the new references are
valid in the new heap. -/
theorem imputeColumn_cells (name : String) (m : JSNum) (refs : List ℕ) :
    ∀ h : Heap, (∀ r ∈ refs, r < h.length) →
      colCells (imputeColumn name m h refs).1 (imputeColumn name m h refs).2.1
          name =
        (colCells h refs name).map
          (fun v => if v = .null then .num m else v) ∧
      (imputeColumn name m h refs).2.2 =
        ((colCells h refs name).filter (fun v => v = Value.null)).length ∧
      (imputeColumn name m h refs).2.1.length = refs.length ∧
      (∀ r ∈ (imputeColumn name m h refs).2.1,
        r < (imputeColumn name m h refs).1.length) := by
  induction refs with
  | nil => exact fun h _ => ⟨rfl, rfl, rfl, by simp [imputeColumn]⟩
  | cons r rest ih =>
      intro h hwf
      unfold imputeColumn
      by_cases hc : getCell h r name = .null
      · simp only [if_pos hc]
        have hwf' : ∀ r' ∈ rest, r' <
            (h ++ [setVal (h.getD r []) name (.num m)]).length := by
          intro r' hr'
          have := hwf r' (by simp [hr'])
          simp only [List.length_append, List.length_cons, List.length_nil]
          omega
        obtain ⟨ihcells, ihcount, ihlen, ihwf⟩ :=
          ih (h ++ [setVal (h.getD r []) name (.num m)]) hwf'
        obtain ⟨ext, hext⟩ := imputeColumn_heap_append name m rest
          (h ++ [setVal (h.getD r []) name (.num m)])
        refine ⟨?_, ?_, ?_, ?_⟩
        · show getCell _ h.length name :: colCells _ _ name = _
          have hhead : getCell (imputeColumn name m
              (h ++ [setVal (h.getD r []) name (.num m)]) rest).1
              h.length name = .num m := by
            unfold getCell
            rw [hext, List.getD_append _ _ _ _
              (by simp only [List.length_append, List.length_cons,
                List.length_nil]; omega)]
            rw [List.getD_append_right _ _ _ _ (le_refl _)]
            simp [getVal_setVal_self]
          rw [hhead]
          have htail := ihcells
          have hcol : colCells (h ++ [setVal (h.getD r []) name (.num m)])
              rest name = colCells h rest name := by
            apply List.map_congr_left
            intro r' hr'
            unfold getCell
            rw [List.getD_append _ _ _ _ (hwf r' (by simp [hr']))]
          rw [hcol] at htail
          rw [htail]
          show _ = (if getCell h r name = Value.null then Value.num m
            else getCell h r name) :: _
          rw [if_pos hc]
          rfl
        · show (imputeColumn name m _ rest).2.2 + 1 = _
          have hcol : colCells (h ++ [setVal (h.getD r []) name (.num m)])
              rest name = colCells h rest name := by
            apply List.map_congr_left
            intro r' hr'
            unfold getCell
            rw [List.getD_append _ _ _ _ (hwf r' (by simp [hr']))]
          rw [ihcount, hcol]
          show _ = ((getCell h r name :: colCells h rest name).filter
            (fun v => v = Value.null)).length
          rw [List.filter_cons_of_pos (by simp [hc])]
          rfl
        · show (imputeColumn name m _ rest).2.1.length + 1 = _
          rw [ihlen]
          rfl
        · intro r' hr'
          rcases List.mem_cons.mp hr' with hr0 | hrmem
          · subst hr0
            rw [hext]
            simp only [List.length_append, List.length_cons, List.length_nil]
            omega
          · exact ihwf r' hrmem
      · simp only [if_neg hc]
        obtain ⟨ihcells, ihcount, ihlen, ihwf⟩ :=
          ih h (fun r' hr' => hwf r' (by simp [hr']))
        obtain ⟨ext, hext⟩ := imputeColumn_heap_append name m rest h
        refine ⟨?_, ?_, ?_, ?_⟩
        · show getCell _ r name :: colCells _ _ name = _
          have hhead : getCell (imputeColumn name m h rest).1 r name =
              getCell h r name := by
            unfold getCell
            rw [hext, List.getD_append _ _ _ _ (hwf r (by simp))]
          rw [hhead, ihcells]
          show _ = (if getCell h r name = Value.null then Value.num m
            else getCell h r name) :: _
          rw [if_neg hc]
          rfl
        · show (imputeColumn name m h rest).2.2 = _
          rw [ihcount]
          show _ = ((getCell h r name :: colCells h rest name).filter
            (fun v => v = Value.null)).length
          rw [List.filter_cons_of_neg (by simp [hc])]
        · show (imputeColumn name m h rest).2.1.length + 1 = _
          rw [ihlen]
          rfl
        · intro r' hr'
          rcases List.mem_cons.mp hr' with hr0 | hrmem
          · subst hr0
            have hle : h.length ≤ (imputeColumn name m h rest).1.length := by
              rw [hext]
              simp
            exact lt_of_lt_of_le (hwf r' (by simp)) hle
          · exact ihwf r' hrmem

/-- Mean/median imputation leaves every other column's cells unchanged
(the fresh rows copy them). -/
theorem imputeColumn_cells_ne (name : String) (m : JSNum) (refs : List ℕ)
    (c : String) (hc : c ≠ name) :
    ∀ h : Heap, (∀ r ∈ refs, r < h.length) →
      colCells (imputeColumn name m h refs).1 (imputeColumn name m h refs).2.1
        c = colCells h refs c := by
  induction refs with
  | nil => exact fun h _ => rfl
  | cons r rest ih =>
      intro h hwf
      unfold imputeColumn
      by_cases hcell : getCell h r name = .null
      · simp only [if_pos hcell]
        obtain ⟨ext, hext⟩ := imputeColumn_heap_append name m rest
          (h ++ [setVal (h.getD r []) name (.num m)])
        have hwf' : ∀ r' ∈ rest, r' <
            (h ++ [setVal (h.getD r []) name (.num m)]).length := by
          intro r' hr'
          have := hwf r' (by simp [hr'])
          simp only [List.length_append, List.length_cons, List.length_nil]
          omega
        show getCell _ h.length c :: colCells _ _ c = _
        have hhead : getCell (imputeColumn name m
            (h ++ [setVal (h.getD r []) name (.num m)]) rest).1
            h.length c = getCell h r c := by
          unfold getCell
          rw [hext, List.getD_append _ _ _ _
            (by simp only [List.length_append, List.length_cons,
              List.length_nil]; omega)]
          rw [List.getD_append_right _ _ _ _ (le_refl _)]
          simp [getVal_setVal_ne _ _ _ _ hc]
        rw [hhead]
        have htail := ih (h ++ [setVal (h.getD r []) name (.num m)]) hwf'
        have hcol : colCells (h ++ [setVal (h.getD r []) name (.num m)])
            rest c = colCells h rest c := by
          apply List.map_congr_left
          intro r' hr'
          unfold getCell
          rw [List.getD_append _ _ _ _ (hwf r' (by simp [hr']))]
        rw [htail, hcol]
        rfl
      · simp only [if_neg hcell]
        obtain ⟨ext, hext⟩ := imputeColumn_heap_append name m rest h
        show getCell _ r c :: colCells _ _ c = _
        have hhead : getCell (imputeColumn name m h rest).1 r c =
            getCell h r c := by
          unfold getCell
          rw [hext, List.getD_append _ _ _ _ (hwf r (by simp))]
        rw [hhead, ih h (fun r' hr' => hwf r' (by simp [hr']))]
        rfl

/-- A missing-value step (with the `mean` method) for a variable with a
different name leaves the given column's cells, the table length, the
reference validity, and the column's summary entry unchanged. -/
theorem missingStep_frame_mean (th : Option ℚ)
    (st : Heap × List ℕ × List (String × MVSummaryEntry)) (v : VariableInfo)
    (c : String) (hc : v.name ≠ c)
    (hwf : ∀ r ∈ st.2.1, r < st.1.length) :
    colCells (handleMissingValuesStep ⟨"mean", th⟩ st v).1
        (handleMissingValuesStep ⟨"mean", th⟩ st v).2.1 c =
      colCells st.1 st.2.1 c ∧
    (handleMissingValuesStep ⟨"mean", th⟩ st v).2.1.length = st.2.1.length ∧
    (∀ r ∈ (handleMissingValuesStep ⟨"mean", th⟩ st v).2.1,
      r < (handleMissingValuesStep ⟨"mean", th⟩ st v).1.length) ∧
    lookupStr (handleMissingValuesStep ⟨"mean", th⟩ st v).2.2 c =
      lookupStr st.2.2 c := by
  simp only [handleMissingValuesStep]
  split_ifs with h1 h2
  · exact ⟨rfl, rfl, hwf, rfl⟩
  · exact ⟨rfl, rfl, hwf, lookupStr_append_single_ne _ _ _ _ hc⟩
  · obtain ⟨-, -, hlen, hwf'⟩ := imputeColumn_cells v.name
      (calculateMean ((List.filter (fun x => x ≠ Value.null)
        (List.map (fun r => getCell st.1 r v.name) st.2.1)).map asNum))
      st.2.1 st.1 hwf
    refine ⟨?_, hlen, hwf', lookupStr_append_single_ne _ _ _ _ hc⟩
    exact imputeColumn_cells_ne v.name _ st.2.1 c (Ne.symm hc) st.1 hwf

/-- Folding mean missing-value steps over variables that all have names
other than `c` leaves column `c`, the table length and the summary entry
for `c` unchanged. -/
theorem missingFold_frame_mean (th : Option ℚ) (c : String)
    (vars : List VariableInfo) (hvars : ∀ v ∈ vars, v.name ≠ c) :
    ∀ st : Heap × List ℕ × List (String × MVSummaryEntry),
      (∀ r ∈ st.2.1, r < st.1.length) →
      colCells ((vars.foldl (handleMissingValuesStep ⟨"mean", th⟩) st)).1
          ((vars.foldl (handleMissingValuesStep ⟨"mean", th⟩) st)).2.1 c =
        colCells st.1 st.2.1 c ∧
      ((vars.foldl (handleMissingValuesStep ⟨"mean", th⟩) st)).2.1.length =
        st.2.1.length ∧
      (∀ r ∈ ((vars.foldl (handleMissingValuesStep ⟨"mean", th⟩) st)).2.1,
        r < ((vars.foldl (handleMissingValuesStep ⟨"mean", th⟩) st)).1.length) ∧
      lookupStr ((vars.foldl (handleMissingValuesStep ⟨"mean", th⟩) st)).2.2 c =
        lookupStr st.2.2 c := by
  induction vars with
  | nil => exact fun st hwf => ⟨rfl, rfl, hwf, rfl⟩
  | cons v rest ih =>
      intro st hwf
      rw [List.foldl_cons]
      have hstep := missingStep_frame_mean th st v c (hvars v (by simp)) hwf
      have hrest := ih (fun w hw => hvars w (by simp [hw]))
        (handleMissingValuesStep ⟨"mean", th⟩ st v) hstep.2.2.1
      exact ⟨hrest.1.trans hstep.1, hrest.2.1.trans hstep.2.1,
        hrest.2.2.1, hrest.2.2.2.trans hstep.2.2.2⟩

/-- C6 amended: for a numeric column under the `mean` method, with the
effective threshold being `config.threshold || 0.5` (so a configured
threshold of `0` — JavaScript falsy — is replaced by the default `0.5`,
exactly like an absent one): if the column's missing ratio exceeds the
effective threshold, the summary records `{method: "skip", count:
missingCount}` and every cell of the column is unchanged; otherwise every
null cell is replaced by the arithmetic mean (sum/length) of the column's
non-null values and the summary records `{method: "mean", count:
missingCount}`.  The row count is unchanged in both cases. -/
theorem handleMissingValues_mean_spec (h : Heap) (tbl : List ℕ)
    (vs1 vs2 : List VariableInfo) (vc : VariableInfo) (th : Option ℚ)
    (hnum : vc.type = VType.numeric)
    (hnames : ∀ v ∈ vs1 ++ vs2, v.name ≠ vc.name)
    (hwf : ∀ r ∈ tbl, r < h.length)
    (hcells : ∀ v ∈ colCells h tbl vc.name,
      v = Value.null ∨ ∃ x : ℚ, v = Value.num (.fin x)) :
    (handleMissingValues h tbl (vs1 ++ vc :: vs2) ⟨"mean", th⟩).2.1.length =
      tbl.length ∧
    (jsGtB (jsDiv (.fin (((colCells h tbl vc.name).filter
          (fun v => v = Value.null)).length)) (.fin tbl.length))
        (.fin (thresholdOr th)) = true →
      lookupStr (handleMissingValues h tbl (vs1 ++ vc :: vs2)
          ⟨"mean", th⟩).2.2 vc.name =
        some ⟨"skip", ((colCells h tbl vc.name).filter
          (fun v => v = Value.null)).length⟩ ∧
      colCells (handleMissingValues h tbl (vs1 ++ vc :: vs2) ⟨"mean", th⟩).1
          (handleMissingValues h tbl (vs1 ++ vc :: vs2) ⟨"mean", th⟩).2.1
          vc.name = colCells h tbl vc.name) ∧
    (jsGtB (jsDiv (.fin (((colCells h tbl vc.name).filter
          (fun v => v = Value.null)).length)) (.fin tbl.length))
        (.fin (thresholdOr th)) = false →
      lookupStr (handleMissingValues h tbl (vs1 ++ vc :: vs2)
          ⟨"mean", th⟩).2.2 vc.name =
        some ⟨"mean", ((colCells h tbl vc.name).filter
          (fun v => v = Value.null)).length⟩ ∧
      colCells (handleMissingValues h tbl (vs1 ++ vc :: vs2) ⟨"mean", th⟩).1
          (handleMissingValues h tbl (vs1 ++ vc :: vs2) ⟨"mean", th⟩).2.1
          vc.name =
        (colCells h tbl vc.name).map (fun v => if v = Value.null then
          Value.num (.fin ((finCol (colCells h tbl vc.name)).sum /
            ((finCol (colCells h tbl vc.name)).length : ℚ)))
          else v)) := by
  have hvs1 : ∀ v ∈ vs1, v.name ≠ vc.name := fun v hv => hnames v (by simp [hv])
  have hvs2 : ∀ v ∈ vs2, v.name ≠ vc.name := fun v hv => hnames v (by simp [hv])
  unfold handleMissingValues
  rw [List.foldl_append, List.foldl_cons]
  have frame1 := missingFold_frame_mean th vc.name vs1 hvs1 (h, tbl, []) hwf
  set st1 := vs1.foldl (handleMissingValuesStep ⟨"mean", th⟩)
    ((h, tbl, []) : Heap × List ℕ × List (String × MVSummaryEntry)) with hst1
  have f1cells : colCells st1.1 st1.2.1 vc.name = colCells h tbl vc.name :=
    frame1.1
  have f1len : st1.2.1.length = tbl.length := frame1.2.1
  have f1wf : ∀ r ∈ st1.2.1, r < st1.1.length := frame1.2.2.1
  have f1lookup : lookupStr st1.2.2 vc.name = none := frame1.2.2.2
  have hmc : (st1.2.1.filter
      (fun r => getCell st1.1 r vc.name = Value.null)).length =
      ((colCells h tbl vc.name).filter (fun v => v = Value.null)).length := by
    rw [← length_filter_colCells, f1cells]
  cases hC : jsGtB (jsDiv (.fin (((colCells h tbl vc.name).filter
      (fun v => v = Value.null)).length)) (.fin tbl.length))
      (.fin (thresholdOr th)) with
  | true =>
      have hstep : handleMissingValuesStep ⟨"mean", th⟩ st1 vc =
          (st1.1, st1.2.1, st1.2.2 ++ [(vc.name,
            ⟨"skip", ((colCells h tbl vc.name).filter
              (fun v => v = Value.null)).length⟩)]) := by
        simp only [handleMissingValuesStep]
        rw [if_neg (by simp [hnum])]
        rw [hmc, f1len]
        rw [if_pos hC]
      rw [hstep]
      have frame2 := missingFold_frame_mean th vc.name vs2 hvs2
        (st1.1, st1.2.1, st1.2.2 ++ [(vc.name,
          ⟨"skip", ((colCells h tbl vc.name).filter
            (fun v => v = Value.null)).length⟩)]) f1wf
      refine ⟨frame2.2.1.trans f1len, fun _ => ⟨?_, ?_⟩, fun habs => ?_⟩
      · exact frame2.2.2.2.trans (lookupStr_append_single_found _ _ _ f1lookup)
      · exact frame2.1.trans f1cells
      · simp at habs
  | false =>
      have hV : ((st1.2.1.map (fun r => getCell st1.1 r vc.name)).filter
          (fun x => x ≠ Value.null)).map asNum =
          (finCol (colCells h tbl vc.name)).map JSNum.fin := by
        show ((colCells st1.1 st1.2.1 vc.name).filter
          (fun x => x ≠ Value.null)).map asNum = _
        rw [f1cells]
        exact filtered_asNum_eq_finCol _ hcells
      have hM : calculateMean (((st1.2.1.map
          (fun r => getCell st1.1 r vc.name)).filter
          (fun x => x ≠ Value.null)).map asNum) =
          .fin ((finCol (colCells h tbl vc.name)).sum /
            ((finCol (colCells h tbl vc.name)).length : ℚ)) := by
        rw [hV]
        exact calculateMean_finList _
      obtain ⟨impcells, impcount, implen, impwf⟩ := imputeColumn_cells vc.name
        (calculateMean (((st1.2.1.map
          (fun r => getCell st1.1 r vc.name)).filter
          (fun x => x ≠ Value.null)).map asNum)) st1.2.1 st1.1 f1wf
      set imp := imputeColumn vc.name
        (calculateMean (((st1.2.1.map
          (fun r => getCell st1.1 r vc.name)).filter
          (fun x => x ≠ Value.null)).map asNum)) st1.1 st1.2.1 with himp
      have hstep : handleMissingValuesStep ⟨"mean", th⟩ st1 vc =
          (imp.1, imp.2.1, st1.2.2 ++ [(vc.name, ⟨"mean", imp.2.2⟩)]) := by
        simp only [handleMissingValuesStep]
        rw [if_neg (by simp [hnum])]
        rw [hmc, f1len]
        rw [if_neg (by rw [hC]; exact Bool.false_ne_true)]
        rw [if_pos trivial]
      rw [hstep]
      have frame2 := missingFold_frame_mean th vc.name vs2 hvs2
        (imp.1, imp.2.1, st1.2.2 ++ [(vc.name, ⟨"mean", imp.2.2⟩)]) impwf
      have hcount : imp.2.2 =
          ((colCells h tbl vc.name).filter (fun v => v = Value.null)).length := by
        rw [impcount, f1cells]
      refine ⟨?_, fun habs => ?_, fun _ => ⟨?_, ?_⟩⟩
      · exact frame2.2.1.trans (implen.trans f1len)
      · simp at habs
      · refine frame2.2.2.2.trans ?_
        have hfound := lookupStr_append_single_found st1.2.2 vc.name
          (⟨"mean", imp.2.2⟩ : MVSummaryEntry) f1lookup
        rw [hfound, hcount]
      · refine frame2.1.trans ?_
        rw [impcells, f1cells, hM]

/-- Witness for the amended C6: on a two-row column `[null, 2]` with
threshold 0.5 (ratio 0.5, not exceeding), the null is replaced by the mean
2 and the summary records `mean` with count 1. -/
theorem handleMissingValues_mean_spec_witness :
    (mkVar "x" VType.numeric).type = VType.numeric ∧
    lookupStr (handleMissingValues
        [[("x", Value.null)], [("x", Value.num (.fin 2))]] [0, 1]
        [mkVar "x" VType.numeric] ⟨"mean", some (1/2)⟩).2.2
      (mkVar "x" VType.numeric).name = some ⟨"mean", 1⟩ ∧
    colCells (handleMissingValues
        [[("x", Value.null)], [("x", Value.num (.fin 2))]] [0, 1]
        [mkVar "x" VType.numeric] ⟨"mean", some (1/2)⟩).1
      (handleMissingValues
        [[("x", Value.null)], [("x", Value.num (.fin 2))]] [0, 1]
        [mkVar "x" VType.numeric] ⟨"mean", some (1/2)⟩).2.1
      (mkVar "x" VType.numeric).name =
      [Value.num (.fin 2), Value.num (.fin 2)] := by
  have H := handleMissingValues_mean_spec
    [[("x", Value.null)], [("x", Value.num (.fin 2))]] [0, 1] [] []
    (mkVar "x" VType.numeric) (some (1/2)) rfl (by simp) (by decide)
    (by
      intro v hv
      simp [colCells, getCell, getVal, mkVar] at hv
      rcases hv with hnull | hfin
      · left; exact hnull
      · right; exact ⟨2, hfin⟩)
  simp only [List.nil_append] at H
  have hcol : colCells [[("x", Value.null)], [("x", Value.num (.fin 2))]]
      [0, 1] (mkVar "x" VType.numeric).name =
      [Value.null, Value.num (.fin 2)] := by
    simp [colCells, getCell, getVal, mkVar]
  have H2 := H.2.2 (by
    rw [hcol]
    have hth : thresholdOr (some (1/2)) = 1/2 := by norm_num [thresholdOr]
    rw [hth]
    simp)
  refine ⟨rfl, ?_, ?_⟩
  · rw [H2.1, hcol]
    simp
  · rw [H2.2, hcol]
    simp [finCol]

/-- C6 counterexample: with a configured threshold of `0` and a column
whose missing ratio is `1/4 > 0`, the claim requires a `skip` record and
unchanged cells; the code treats the falsy threshold `0` as `0.5`, imputes
the null with the mean `1`, and records `{method: "mean", count: 1}`. -/
theorem handleMissingValues_threshold_zero_cex :
    (1 : ℚ)/4 > 0 ∧
    lookupStr (handleMissingValues
        [[("x", Value.null)], [("x", Value.num (.fin 1))],
          [("x", Value.num (.fin 1))], [("x", Value.num (.fin 1))]]
        [0, 1, 2, 3] [mkVar "x" VType.numeric] ⟨"mean", some 0⟩).2.2 "x" =
      some ⟨"mean", 1⟩ ∧
    colCells (handleMissingValues
        [[("x", Value.null)], [("x", Value.num (.fin 1))],
          [("x", Value.num (.fin 1))], [("x", Value.num (.fin 1))]]
        [0, 1, 2, 3] [mkVar "x" VType.numeric] ⟨"mean", some 0⟩).1
      (handleMissingValues
        [[("x", Value.null)], [("x", Value.num (.fin 1))],
          [("x", Value.num (.fin 1))], [("x", Value.num (.fin 1))]]
        [0, 1, 2, 3] [mkVar "x" VType.numeric] ⟨"mean", some 0⟩).2.1 "x" =
      [Value.num (.fin 1), Value.num (.fin 1), Value.num (.fin 1),
        Value.num (.fin 1)] := by
  refine ⟨by norm_num, ?_⟩
  have hth : thresholdOr (some 0) = 1/2 := by norm_num [thresholdOr]
  have hmean : calculateMean [JSNum.fin 1, JSNum.fin 1, JSNum.fin 1] =
      JSNum.fin 1 := by
    norm_num [calculateMean]
  have hlt : ¬ ((2⁻¹ : ℚ) < 4⁻¹) := by norm_num
  constructor
  · simp [handleMissingValues, handleMissingValuesStep, imputeColumn,
      getCell, getVal, setVal, asNum, lookupStr, mkVar, hth, hmean, hlt]
  · simp [handleMissingValues, handleMissingValuesStep, imputeColumn,
      getCell, getVal, setVal, asNum, colCells, mkVar, hth, hmean, hlt]

theorem outlierWrite_length (msqrt : JSNum → JSNum) (name : String)
    (threshold : ℚ) (values : List JSNum) (tbl : List ℕ) (h : Heap)
    (index : ℕ) :
    (outlierWrite msqrt name threshold values tbl h index).length = h.length := by
  simp [outlierWrite]

theorem outlierWrite_getVal_ne (msqrt : JSNum → JSNum) (name : String)
    (threshold : ℚ) (values : List JSNum) (tbl : List ℕ) (h : Heap)
    (index : ℕ) (r' : ℕ) (c : String) (hc : c ≠ name) :
    getVal ((outlierWrite msqrt name threshold values tbl h index).getD r' []) c =
      getVal (h.getD r' []) c := by
  simp only [outlierWrite]
  rw [getD_set]
  split
  case isTrue hcond =>
    obtain ⟨hr, -⟩ := hcond
    subst hr
    rw [getVal_setVal_ne _ _ _ _ hc]
  case isFalse => rfl

theorem outlierWrite_getD_ne (msqrt : JSNum → JSNum) (name : String)
    (threshold : ℚ) (values : List JSNum) (tbl : List ℕ) (h : Heap)
    (index : ℕ) (r' : ℕ) (hr : r' ≠ tbl.getD index 0) :
    (outlierWrite msqrt name threshold values tbl h index).getD r' [] =
      h.getD r' [] := by
  simp only [outlierWrite]
  rw [getD_set_ne _ _ _ _ hr]

theorem outlierWrite_target (msqrt : JSNum → JSNum) (name : String)
    (threshold : ℚ) (values : List JSNum) (tbl : List ℕ) (h : Heap)
    (index : ℕ) (hlen : tbl.getD index 0 < h.length) :
    getVal ((outlierWrite msqrt name threshold values tbl h index).getD
        (tbl.getD index 0) []) name =
      .num (outlierNewVal msqrt threshold values index) := by
  simp only [outlierWrite]
  rw [getD_set, if_pos ⟨rfl, hlen⟩, getVal_setVal_self]

theorem outlierFold_length (msqrt : JSNum → JSNum) (name : String)
    (threshold : ℚ) (values : List JSNum) (tbl : List ℕ) (idxs : List ℕ) :
    ∀ h : Heap,
      (idxs.foldl (outlierWrite msqrt name threshold values tbl) h).length =
        h.length := by
  induction idxs with
  | nil => intro h; rfl
  | cons i rest ih =>
      intro h
      rw [List.foldl_cons, ih, outlierWrite_length]

theorem outlierFold_getVal_ne (msqrt : JSNum → JSNum) (name : String)
    (threshold : ℚ) (values : List JSNum) (tbl : List ℕ) (idxs : List ℕ)
    (c : String) (hc : c ≠ name) :
    ∀ (h : Heap) (r' : ℕ),
      getVal ((idxs.foldl (outlierWrite msqrt name threshold values tbl)
        h).getD r' []) c = getVal (h.getD r' []) c := by
  induction idxs with
  | nil => intro h r'; rfl
  | cons i rest ih =>
      intro h r'
      rw [List.foldl_cons, ih, outlierWrite_getVal_ne _ _ _ _ _ _ _ _ _ hc]

theorem outlierFold_getD_not_ref (msqrt : JSNum → JSNum) (name : String)
    (threshold : ℚ) (values : List JSNum) (tbl : List ℕ) (idxs : List ℕ) :
    ∀ (h : Heap) (r' : ℕ), (∀ i ∈ idxs, r' ≠ tbl.getD i 0) →
      (idxs.foldl (outlierWrite msqrt name threshold values tbl) h).getD r' [] =
        h.getD r' [] := by
  induction idxs with
  | nil => intro h r' _; rfl
  | cons i rest ih =>
      intro h r' hr
      rw [List.foldl_cons, ih _ _ (fun j hj => hr j (by simp [hj])),
        outlierWrite_getD_ne _ _ _ _ _ _ _ _ (hr i (by simp))]

/-- Effect of the outlier write pass on its own column, at each table
position: detected positions are clamped, all others untouched.  Requires
distinct references (distinct row objects) and in-range indices. -/
theorem outlierFold_cells (msqrt : JSNum → JSNum) (name : String)
    (threshold : ℚ) (values : List JSNum) (tbl : List ℕ) (idxs : List ℕ)
    (htblnd : tbl.Nodup) (hidx : ∀ i ∈ idxs, i < tbl.length)
    (hidxnd : idxs.Nodup) :
    ∀ h : Heap, (∀ r ∈ tbl, r < h.length) →
      ∀ j, j < tbl.length →
        getVal ((idxs.foldl (outlierWrite msqrt name threshold values tbl)
            h).getD (tbl.getD j 0) []) name =
          if j ∈ idxs then .num (outlierNewVal msqrt threshold values j)
          else getVal (h.getD (tbl.getD j 0) []) name := by
  induction idxs with
  | nil =>
      intro h _ j _
      rw [if_neg (by simp)]
      rfl
  | cons i rest ih =>
      intro h hwf j hj
      have hi : i < tbl.length := hidx i (by simp)
      have hrestidx : ∀ k ∈ rest, k < tbl.length :=
        fun k hk => hidx k (by simp [hk])
      have hrestnd : rest.Nodup := (List.nodup_cons.mp hidxnd).2
      have hinotrest : i ∉ rest := (List.nodup_cons.mp hidxnd).1
      have hwf' : ∀ r ∈ tbl, r <
          (outlierWrite msqrt name threshold values tbl h i).length := by
        intro r hr
        rw [outlierWrite_length]
        exact hwf r hr
      rw [List.foldl_cons]
      by_cases hji : j = i
      · subst hji
        rw [if_pos (by simp)]
        have hnotref : ∀ k ∈ rest, tbl.getD j 0 ≠ tbl.getD k 0 := by
          intro k hk heq
          rw [List.getD_eq_getElem tbl 0 hj,
            List.getD_eq_getElem tbl 0 (hrestidx k hk)] at heq
          exact hinotrest ((htblnd.getElem_inj_iff.mp heq) ▸ hk)
        rw [outlierFold_getD_not_ref _ _ _ _ _ _ _ _ hnotref]
        exact outlierWrite_target _ _ _ _ _ _ _
          (hwf _ (by
            rw [List.getD_eq_getElem tbl 0 hj]
            exact List.getElem_mem hj))
      · have hres := ih hrestidx hrestnd
          (outlierWrite msqrt name threshold values tbl h i) hwf' j hj
        rw [hres]
        by_cases hjrest : j ∈ rest
        · rw [if_pos hjrest, if_pos (by simp [hjrest])]
        · rw [if_neg hjrest, if_neg (by simp [hji, hjrest])]
          have hneq : tbl.getD j 0 ≠ tbl.getD i 0 := by
            intro heq
            rw [List.getD_eq_getElem tbl 0 hj,
              List.getD_eq_getElem tbl 0 hi] at heq
            exact hji (htblnd.getElem_inj_iff.mp heq)
          rw [outlierWrite_getD_ne _ _ _ _ _ _ _ _ hneq]

/-- Indices produced by an enum-filter detector are within bounds. -/
theorem enumFilter_fst_lt {α : Type} (l : List α) (p : ℕ × α → Bool) :
    ∀ i ∈ ((l.enum).filter p).map Prod.fst, i < l.length := by
  intro i hi
  obtain ⟨⟨i', a⟩, hmem, rfl⟩ := List.mem_map.mp hi
  exact List.fst_lt_of_mem_enum (List.mem_of_mem_filter hmem)

/-- Indices produced by an enum-filter detector are distinct. -/
theorem enumFilter_fst_nodup {α : Type} (l : List α) (p : ℕ × α → Bool) :
    (((l.enum).filter p).map Prod.fst).Nodup := by
  have hsub : ((l.enum).filter p).map Prod.fst |>.Sublist
      ((l.enum).map Prod.fst) :=
    List.Sublist.map Prod.fst (List.filter_sublist _)
  rw [List.enum_map_fst] at hsub
  exact hsub.nodup (List.nodup_range _)

theorem detectOutliersZScore_lt (msqrt : JSNum → JSNum) (values : List JSNum)
    (threshold : ℚ) :
    ∀ i ∈ detectOutliersZScore msqrt values threshold, i < values.length := by
  simp only [detectOutliersZScore]
  exact enumFilter_fst_lt values _

theorem detectOutliersZScore_nodup (msqrt : JSNum → JSNum)
    (values : List JSNum) (threshold : ℚ) :
    (detectOutliersZScore msqrt values threshold).Nodup := by
  simp only [detectOutliersZScore]
  exact enumFilter_fst_nodup values _

theorem detectOutliersIQR_lt (values : List JSNum) (threshold : ℚ) :
    ∀ i ∈ detectOutliersIQR values threshold, i < values.length := by
  simp only [detectOutliersIQR]
  exact enumFilter_fst_lt values _

theorem detectOutliersIQR_nodup (values : List JSNum) (threshold : ℚ) :
    (detectOutliersIQR values threshold).Nodup := by
  simp only [detectOutliersIQR]
  exact enumFilter_fst_nodup values _

/-- An outlier step for a variable with a different name does not change
the given column and preserves the heap size. -/
theorem handleOutliersStep_frame (msqrt : JSNum → JSNum)
    (config : OutlierConfig) (tbl : List ℕ)
    (st : Heap × List (String × OutlierSummaryEntry)) (v : VariableInfo)
    (c : String) (hc : v.name ≠ c) :
    colCells (handleOutliersStep msqrt config tbl st v).1 tbl c =
      colCells st.1 tbl c ∧
    (handleOutliersStep msqrt config tbl st v).1.length = st.1.length := by
  simp only [handleOutliersStep]
  split_ifs <;>
    first
      | exact ⟨rfl, rfl⟩
      | exact ⟨List.map_congr_left (fun r hr =>
            outlierFold_getVal_ne _ _ _ _ tbl _ c (Ne.symm hc) st.1 r),
          outlierFold_length _ _ _ _ tbl _ st.1⟩

/-- Folding outlier steps over variables that all have names other than
`c` leaves column `c` unchanged. -/
theorem outliersFold_frame (msqrt : JSNum → JSNum) (config : OutlierConfig)
    (tbl : List ℕ) (c : String) (vars : List VariableInfo)
    (hvars : ∀ v ∈ vars, v.name ≠ c) :
    ∀ st : Heap × List (String × OutlierSummaryEntry),
      colCells ((vars.foldl (handleOutliersStep msqrt config tbl) st)).1 tbl c =
        colCells st.1 tbl c ∧
      ((vars.foldl (handleOutliersStep msqrt config tbl) st)).1.length =
        st.1.length := by
  induction vars with
  | nil => exact fun st => ⟨rfl, rfl⟩
  | cons v rest ih =>
      intro st
      rw [List.foldl_cons]
      have hstep := handleOutliersStep_frame msqrt config tbl st v c
        (hvars v (by simp))
      have hrest := ih (fun w hw => hvars w (by simp [hw]))
        (handleOutliersStep msqrt config tbl st v)
      exact ⟨hrest.1.trans hstep.1, hrest.2.trans hstep.2⟩

/-- Unfolding of an outlier step on a numeric variable. -/
theorem handleOutliersStep_apply (msqrt : JSNum → JSNum)
    (config : OutlierConfig) (tbl : List ℕ)
    (st : Heap × List (String × OutlierSummaryEntry)) (v : VariableInfo)
    (hv : v.type = VType.numeric) :
    (handleOutliersStep msqrt config tbl st v).1 =
      (if config.method = "zscore" then
        detectOutliersZScore msqrt (((tbl.map (fun r => getCell st.1 r v.name)).filter
          (fun x => x ≠ Value.null)).map asNum) config.threshold
      else if config.method = "iqr" then
        detectOutliersIQR (((tbl.map (fun r => getCell st.1 r v.name)).filter
          (fun x => x ≠ Value.null)).map asNum) config.threshold
      else []).foldl
        (outlierWrite msqrt v.name config.threshold
          (((tbl.map (fun r => getCell st.1 r v.name)).filter
            (fun x => x ≠ Value.null)).map asNum) tbl) st.1 := by
  simp [handleOutliersStep, hv]

/-- Pointwise reading of a column-cells equality. -/
theorem colCells_eq_getVal_at (A B : Heap) (tbl : List ℕ) (c : String)
    (hcol : colCells A tbl c = colCells B tbl c) (i : ℕ)
    (hi : i < tbl.length) :
    getVal (A.getD (tbl.getD i 0) []) c = getVal (B.getD (tbl.getD i 0) []) c := by
  rw [List.getD_eq_getElem tbl 0 hi]
  show getCell A tbl[i] c = getCell B tbl[i] c
  have hA : getCell A tbl[i] c = (colCells A tbl c).getD i Value.null := by
    unfold colCells
    rw [List.getD_eq_getElem _ _ (by simpa using hi), List.getElem_map]
  have hB : getCell B tbl[i] c = (colCells B tbl c).getD i Value.null := by
    unfold colCells
    rw [List.getD_eq_getElem _ _ (by simpa using hi), List.getElem_map]
  rw [hA, hB, hcol]

/-- The spec's concrete IQR example: on `[1,2,3,4,100]` with multiplier
`1.5`, exactly index 4 (the value 100) is flagged. -/
theorem detectIQR_example :
    detectOutliersIQR [JSNum.fin 1, JSNum.fin 2, JSNum.fin 3, JSNum.fin 4,
      JSNum.fin 100] (3/2) = [4] := by
  have hsorted : jsSortNums [JSNum.fin 1, JSNum.fin 2, JSNum.fin 3,
      JSNum.fin 4, JSNum.fin 100] =
      [JSNum.fin 1, JSNum.fin 2, JSNum.fin 3, JSNum.fin 4, JSNum.fin 100] := by
    norm_num [jsSortNums, insertNum, jsLeB]
  simp only [detectOutliersIQR, hsorted]
  norm_num [List.enum]

/-- C7 amended: for a numeric column containing no nulls (so indices into
the filtered value list coincide with row positions), the outlier stage
replaces exactly the cells detected by the configured method (z-score, or
IQR with nearest-rank quartiles and multiplier `k = threshold`): a
detected cell is clamped to `mean + threshold·std` when above the mean and
`mean − threshold·std` otherwise, every other cell of the treated column
and every cell of columns not named by any variable are unchanged, and the
reference list (row count and identity) is unchanged.  On `[1,2,3,4,100]`
with IQR and threshold 1.5, exactly index 4 (value 100) is flagged.  (With
nulls present the index lists misalign and the wrong rows are clobbered;
see the counterexample.) -/
theorem handleOutliers_no_null_spec (msqrt : JSNum → JSNum) (h : Heap)
    (tbl : List ℕ) (vs1 vs2 : List VariableInfo) (vc : VariableInfo)
    (config : OutlierConfig) (hnum : vc.type = VType.numeric)
    (hnames : ∀ v ∈ vs1 ++ vs2, v.name ≠ vc.name)
    (hwf : ∀ r ∈ tbl, r < h.length) (hnodup : tbl.Nodup)
    (hnonull : ∀ v ∈ colCells h tbl vc.name, v ≠ Value.null) :
    (handleOutliers msqrt h tbl (vs1 ++ vc :: vs2) config).2.1 = tbl ∧
    (∀ i, i < tbl.length →
      getVal ((handleOutliers msqrt h tbl (vs1 ++ vc :: vs2) config).1.getD
          (tbl.getD i 0) []) vc.name =
        (if i ∈ (if config.method = "zscore" then
              detectOutliersZScore msqrt ((colCells h tbl vc.name).map asNum)
                config.threshold
            else if config.method = "iqr" then
              detectOutliersIQR ((colCells h tbl vc.name).map asNum)
                config.threshold
            else []) then
          Value.num (outlierNewVal msqrt config.threshold
            ((colCells h tbl vc.name).map asNum) i)
        else getVal (h.getD (tbl.getD i 0) []) vc.name)) ∧
    (∀ c2 : String, (∀ v ∈ vs1 ++ vc :: vs2, v.name ≠ c2) →
      colCells (handleOutliers msqrt h tbl (vs1 ++ vc :: vs2) config).1 tbl
        c2 = colCells h tbl c2) ∧
    detectOutliersIQR [JSNum.fin 1, JSNum.fin 2, JSNum.fin 3, JSNum.fin 4,
      JSNum.fin 100] (3/2) = [4] := by
  have hvs1 : ∀ v ∈ vs1, v.name ≠ vc.name := fun v hv => hnames v (by simp [hv])
  have hvs2 : ∀ v ∈ vs2, v.name ≠ vc.name := fun v hv => hnames v (by simp [hv])
  refine ⟨rfl, ?_, ?_, detectIQR_example⟩
  · intro i hi
    show getVal (((vs1 ++ vc :: vs2).foldl (handleOutliersStep msqrt config tbl)
      ((h, []) : Heap × List (String × OutlierSummaryEntry))).1.getD
        (tbl.getD i 0) []) vc.name = _
    rw [List.foldl_append, List.foldl_cons]
    set st1 := vs1.foldl (handleOutliersStep msqrt config tbl)
      ((h, []) : Heap × List (String × OutlierSummaryEntry)) with hst1
    have frame1 := outliersFold_frame msqrt config tbl vc.name vs1 hvs1 (h, [])
    have f1cells : colCells st1.1 tbl vc.name = colCells h tbl vc.name :=
      frame1.1
    have f1len : st1.1.length = h.length := frame1.2
    have frame2 := outliersFold_frame msqrt config tbl vc.name vs2 hvs2
      (handleOutliersStep msqrt config tbl st1 vc)
    rw [colCells_eq_getVal_at _ _ tbl vc.name frame2.1 i hi]
    have hvalsfilter : (colCells h tbl vc.name).filter
        (fun x => x ≠ Value.null) = colCells h tbl vc.name :=
      List.filter_eq_self.mpr (fun a ha => by simpa using hnonull a ha)
    have hvals : ((tbl.map (fun r => getCell st1.1 r vc.name)).filter
        (fun x => x ≠ Value.null)).map asNum =
        (colCells h tbl vc.name).map asNum := by
      show ((colCells st1.1 tbl vc.name).filter
        (fun x => x ≠ Value.null)).map asNum = _
      rw [f1cells, hvalsfilter]
    rw [handleOutliersStep_apply msqrt config tbl st1 vc hnum]
    rw [hvals]
    have hVlen : ((colCells h tbl vc.name).map asNum).length = tbl.length := by
      simp [colCells]
    have hidxlt : ∀ k ∈ (if config.method = "zscore" then
        detectOutliersZScore msqrt ((colCells h tbl vc.name).map asNum)
          config.threshold
      else if config.method = "iqr" then
        detectOutliersIQR ((colCells h tbl vc.name).map asNum)
          config.threshold
      else []), k < tbl.length := by
      intro k hk
      split_ifs at hk
      · exact lt_of_lt_of_eq (detectOutliersZScore_lt msqrt _ _ k hk) hVlen
      · exact lt_of_lt_of_eq (detectOutliersIQR_lt _ _ k hk) hVlen
      · simp at hk
    have hidxnd : (if config.method = "zscore" then
        detectOutliersZScore msqrt ((colCells h tbl vc.name).map asNum)
          config.threshold
      else if config.method = "iqr" then
        detectOutliersIQR ((colCells h tbl vc.name).map asNum)
          config.threshold
      else []).Nodup := by
      split_ifs
      · exact detectOutliersZScore_nodup msqrt _ _
      · exact detectOutliersIQR_nodup _ _
      · exact List.nodup_nil
    have hwf1 : ∀ r ∈ tbl, r < st1.1.length := by
      intro r hr
      rw [f1len]
      exact hwf r hr
    rw [outlierFold_cells msqrt vc.name config.threshold _ tbl _ hnodup
      hidxlt hidxnd st1.1 hwf1 i hi]
    by_cases hmem : i ∈ (if config.method = "zscore" then
        detectOutliersZScore msqrt ((colCells h tbl vc.name).map asNum)
          config.threshold
      else if config.method = "iqr" then
        detectOutliersIQR ((colCells h tbl vc.name).map asNum)
          config.threshold
      else [])
    · rw [if_pos hmem, if_pos hmem]
    · rw [if_neg hmem, if_neg hmem]
      exact colCells_eq_getVal_at _ _ tbl vc.name f1cells i hi
  · intro c2 hc2
    show colCells (((vs1 ++ vc :: vs2).foldl
      (handleOutliersStep msqrt config tbl)
      ((h, []) : Heap × List (String × OutlierSummaryEntry))).1) tbl c2 = _
    exact (outliersFold_frame msqrt config tbl c2 (vs1 ++ vc :: vs2) hc2
      (h, [])).1

/-- Witness for the amended C7 on the no-null column `[1,2,3,4,100]` with
IQR/1.5: position 0 (value 1, not flagged) is unchanged. -/
theorem handleOutliers_no_null_spec_witness :
    ([0, 1, 2, 3, 4] : List ℕ).Nodup ∧
    getVal ((handleOutliers sqrtQ
        [[("x", Value.num (.fin 1))], [("x", Value.num (.fin 2))],
          [("x", Value.num (.fin 3))], [("x", Value.num (.fin 4))],
          [("x", Value.num (.fin 100))]] [0, 1, 2, 3, 4]
        [mkVar "x" VType.numeric] ⟨"iqr", 3/2⟩).1.getD 0 [])
      (mkVar "x" VType.numeric).name = Value.num (.fin 1) := by
  have H := handleOutliers_no_null_spec sqrtQ
    [[("x", Value.num (.fin 1))], [("x", Value.num (.fin 2))],
      [("x", Value.num (.fin 3))], [("x", Value.num (.fin 4))],
      [("x", Value.num (.fin 100))]] [0, 1, 2, 3, 4] [] []
    (mkVar "x" VType.numeric) ⟨"iqr", 3/2⟩ rfl (by simp) (by decide)
    (by decide)
    (by
      intro v hv
      simp [colCells, getCell, getVal, mkVar] at hv
      rcases hv with h | h | h | h | h <;> simp [h])
  simp only [List.nil_append] at H
  have h0 := H.2.1 0 (by norm_num)
  have hV : (colCells [[("x", Value.num (.fin 1))], [("x", Value.num (.fin 2))],
      [("x", Value.num (.fin 3))], [("x", Value.num (.fin 4))],
      [("x", Value.num (.fin 100))]] [0, 1, 2, 3, 4]
      (mkVar "x" VType.numeric).name).map asNum =
      [JSNum.fin 1, JSNum.fin 2, JSNum.fin 3, JSNum.fin 4, JSNum.fin 100] := by
    simp [colCells, getCell, getVal, asNum, mkVar]
  rw [hV] at h0
  refine ⟨by decide, ?_⟩
  rw [show (([0, 1, 2, 3, 4] : List ℕ).getD 0 0) = 0 from rfl] at h0
  rw [h0]
  rw [if_neg (by simp [detectIQR_example])]
  simp [getVal, mkVar]

/-- C7 counterexample: on a column `[null,1,2,3,4,100]` with IQR/1.5 the
detector flags filtered-value index 4 (the value 100, which lives in row
5), but the write goes to row 4: the actual outlier row keeps its value
100, and row 4 — whose value 4 was not detected — is clobbered. -/
theorem handleOutliers_misalignment_cex :
    getVal ((handleOutliers sqrtQ
        [[("x", Value.null)], [("x", Value.num (.fin 1))],
          [("x", Value.num (.fin 2))], [("x", Value.num (.fin 3))],
          [("x", Value.num (.fin 4))], [("x", Value.num (.fin 100))]]
        [0, 1, 2, 3, 4, 5] [mkVar "x" VType.numeric] ⟨"iqr", 3/2⟩).1.getD
        5 []) "x" = Value.num (.fin 100) ∧
    getVal ((handleOutliers sqrtQ
        [[("x", Value.null)], [("x", Value.num (.fin 1))],
          [("x", Value.num (.fin 2))], [("x", Value.num (.fin 3))],
          [("x", Value.num (.fin 4))], [("x", Value.num (.fin 100))]]
        [0, 1, 2, 3, 4, 5] [mkVar "x" VType.numeric] ⟨"iqr", 3/2⟩).1.getD
        4 []) "x" ≠ Value.num (.fin 4) := by
  have hmean : calculateMean [JSNum.fin 1, JSNum.fin 2, JSNum.fin 3,
      JSNum.fin 4, JSNum.fin 100] = JSNum.fin 22 := by
    norm_num [calculateMean]
  have hstd : calculateStd sqrtQ [JSNum.fin 1, JSNum.fin 2, JSNum.fin 3,
      JSNum.fin 4, JSNum.fin 100] = JSNum.nan := by
    norm_num [calculateStd, calculateMean, sqrtQ]
  have hnew : outlierNewVal sqrtQ (3/2) [JSNum.fin 1, JSNum.fin 2,
      JSNum.fin 3, JSNum.fin 4, JSNum.fin 100] 4 = JSNum.nan := by
    norm_num [outlierNewVal, hmean, hstd]
  constructor
  · simp [handleOutliers, handleOutliersStep, outlierWrite, getCell, getVal,
      setVal, asNum, mkVar, hnew, detectIQR_example]
  · simp [handleOutliers, handleOutliersStep, outlierWrite, getCell, getVal,
      setVal, asNum, mkVar, hnew, detectIQR_example]
